import Mathlib

/-!
Verification development for the TreeCorr three-point correlation core
(src/Corr3.cpp), shallowly embedded over exact rational arithmetic.

The engine's external collaborators enter as explicit parameters, following
the collaborator interfaces of the specification:
the metric (DistSq, CCW), the libm transcendentals (sqrt, log), and the
tree cells (read-only view: position, size, weight, count, children).

Mutable accumulation is modelled by having the recursion return the ordered
list of kernel commits (calls of directProcess111) it performs; the final
accumulator state is obtained by folding finishProcess over that list.
The mutually recursive procedures process3 / process12 / process111 /
process111Sorted are embedded as a single structurally recursive function
over an explicit fuel parameter; a run that exhausts fuel reports the
status .out, and a run that dereferences a child of a childless cell
(an Assert(getLeft()) violation in the source) reports .bad with the
site of the failed assertion.
-/

namespace TC

/-- Planar position (Flat coordinates). -/
abbrev Pos := ℚ × ℚ

/-- A tree cell as seen through the read-only cell interface of the core:
position, bounding size, total weight, point count, and children
(both present iff the cell is internal). -/
inductive Cell where
  | leaf (pos : Pos) (size w : ℚ) (n : ℕ)
  | node (pos : Pos) (size w : ℚ) (n : ℕ) (l r : Cell)
deriving DecidableEq

/-- Cell position (getPos). -/
def Cell.pos : Cell → Pos
  | .leaf p _ _ _ => p
  | .node p _ _ _ _ _ => p

/-- Cell bounding size (getSize). -/
def Cell.size : Cell → ℚ
  | .leaf _ s _ _ => s
  | .node _ s _ _ _ _ => s

/-- Cell total weight (getW). -/
def Cell.getW : Cell → ℚ
  | .leaf _ _ w _ => w
  | .node _ _ w _ _ _ => w

/-- Cell point count (getN). -/
def Cell.getN : Cell → ℕ
  | .leaf _ _ _ n => n
  | .node _ _ _ n _ _ => n

/-- Depth of the cell tree: 0 for a leaf, 1 + max of the children for an
internal cell. -/
def Cell.cdepth : Cell → ℕ
  | .leaf _ _ _ _ => 0
  | .node _ _ _ _ l r => max l.cdepth r.cdepth + 1

/-- The numeric collaborators of the core: the metric queries DistSq and
CCW (spec section 6.2) and the libm transcendentals sqrt and log, which the
engine treats as black boxes. -/
structure NumOps where
  distsq : Pos → Pos → ℚ → ℚ → ℚ
  ccw : Pos → Pos → Pos → Bool
  sqrt : ℚ → ℚ
  log : ℚ → ℚ

/-- The binning parameters of BaseCorr3, raw and derived members. -/
structure Params where
  minsep : ℚ
  maxsep : ℚ
  nbins : ℕ
  binsize : ℚ
  b : ℚ
  minu : ℚ
  maxu : ℚ
  nubins : ℕ
  ubinsize : ℚ
  bu : ℚ
  minv : ℚ
  maxv : ℚ
  nvbins : ℕ
  vbinsize : ℚ
  bv : ℚ
  logminsep : ℚ
  halfminsep : ℚ
  halfmind3 : ℚ
  minsepsq : ℚ
  maxsepsq : ℚ
  minusq : ℚ
  maxusq : ℚ
  minvsq : ℚ
  maxvsq : ℚ
  bsq : ℚ
  busq : ℚ
  bvsq : ℚ
  sqrttwobv : ℚ
  nvbins2 : ℕ
  nuv : ℕ
  ntot : ℕ

/-- SQR of the source. -/
def sq (x : ℚ) : ℚ := x * x

/-- The BaseCorr3 constructor: stores the raw parameters and computes the
derived ones exactly as the source constructor does. -/
def mkParams (ops : NumOps) (minsep maxsep : ℚ) (nbins : ℕ) (binsize b : ℚ)
    (minu maxu : ℚ) (nubins : ℕ) (ubinsize bu : ℚ)
    (minv maxv : ℚ) (nvbins : ℕ) (vbinsize bv : ℚ) : Params :=
  { minsep := minsep, maxsep := maxsep, nbins := nbins, binsize := binsize, b := b,
    minu := minu, maxu := maxu, nubins := nubins, ubinsize := ubinsize, bu := bu,
    minv := minv, maxv := maxv, nvbins := nvbins, vbinsize := vbinsize, bv := bv,
    logminsep := ops.log minsep,
    halfminsep := (1/2 : ℚ) * minsep,
    halfmind3 := (1/2 : ℚ) * minsep * minu,
    minsepsq := minsep * minsep, maxsepsq := maxsep * maxsep,
    minusq := minu * minu, maxusq := maxu * maxu,
    minvsq := minv * minv, maxvsq := maxv * maxv,
    bsq := b * b, busq := bu * bu, bvsq := bv * bv,
    sqrttwobv := ops.sqrt (2 * bv),
    nvbins2 := nvbins * 2,
    nuv := nubins * (nvbins * 2),
    ntot := nbins * (nubins * (nvbins * 2)) }

/-- A kernel commit: the data of one reachable call of directProcess111,
together with the intermediate binning values (kr, ku, the pre-flip kv and
pre-flip v) observed at the commit site. -/
structure Event where
  slot : ℕ
  c1 : Cell
  c2 : Cell
  c3 : Cell
  d1 : ℚ
  d2 : ℚ
  d3 : ℚ
  logr : ℚ
  u : ℚ
  vpre : ℚ
  ccw : Bool
  v : ℚ
  kr : ℤ
  ku : ℤ
  kvpre : ℤ
  kv : ℤ
  index : ℤ
deriving DecidableEq

/-- Which procedure's child-access assertion failed. -/
inductive Site where
  | s3
  | s12
  | sS
deriving DecidableEq

/-- Outcome of a run: normal completion, a failed child-access assertion
(dereference of a missing child), or fuel exhaustion. -/
inductive Status where
  | ok
  | bad (site : Site)
  | out
deriving DecidableEq

/-- Result of a run: the ordered list of kernel commits performed, and the
final status. -/
structure Res where
  events : List Event
  status : Status
deriving DecidableEq

/-- Sequential composition: run the second part only if the first finished
normally, keeping the commits already performed. -/
def Res.seq (r1 r2 : Res) : Res :=
  match r1.status with
  | .ok => ⟨r1.events ++ r2.events, r2.status⟩
  | _ => r1

/-- The pruning predicate stop111 of the source, on a sorted triple
(d1sq ≥ d2sq ≥ d3sq); d2 is the caller-computed sqrt of d2sq. -/
def stop111 (P : Params) (d1sq d2sq d3sq d2 s1 s2 s3 : ℚ) : Bool :=
  decide (
    (d2sq < P.minsepsq ∧ s1 + s3 < P.minsep ∧ s1 + s2 < P.minsep ∧
      (s1 + s3 = 0 ∨ d2sq < sq (P.minsep - s1 - s3)) ∧
      (s1 + s2 = 0 ∨ d3sq < sq (P.minsep - s1 - s2))) ∨
    (d2sq ≥ P.maxsepsq ∧
      (s1 + s3 = 0 ∨ d2sq ≥ sq (P.maxsep + s1 + s3)) ∧
      (s2 + s3 = 0 ∨ d1sq ≥ sq (P.maxsep + s2 + s3))) ∨
    (P.minu > 0 ∧ d3sq < P.minusq * d2sq ∧ d2 > s1 + s3 ∧
      P.minu * (d2 - s1 - s3) > s1 + s2 ∧
      d3sq < sq (P.minu * (d2 - s1 - s3) - s1 - s2) ∧
      d3sq < P.minusq * d1sq ∧ d1sq > 2 * sq (s2 + s3) ∧
      P.minusq * d1sq > 2 * d3sq + 2 * sq (s1 + s2 + P.minu * (s2 + s3))) ∨
    (P.maxu < 1 ∧ d3sq ≥ P.maxusq * d2sq ∧
      d3sq ≥ sq (P.maxu * (d2 + s1 + s3) + s1 + s2) ∧
      d2sq > sq (s1 + s3) ∧ d1sq > sq (s2 + s3) ∧
      (s2 > s3 ∨ d3sq ≤ sq (d2 - s3 + s2)) ∧
      (s1 > s3 ∨ d1sq ≥ 2 * d3sq + 2 * sq (s3 - s1))) ∨
    (P.maxv < 1 ∧ d1sq > sq ((1 + P.maxv) * d2 + (s1 + s2 + s3) + P.maxv * (s1 + s2))) ∨
    (P.minv > 0 ∧ d3sq > sq (s1 + s2) ∧
      P.minvsq * d3sq >
        sq ((d1sq - d2sq) / (2 * d2) + (s1 + s2 + s3) + P.minv * (s1 + s2))) ∨
    (s2 = 0 ∧ s3 = 0 ∧ d1sq = 0) ∨
    (s1 = 0 ∧ s3 = 0 ∧ d2sq = 0) ∨
    (s1 = 0 ∧ s2 = 0 ∧ d3sq = 0))

/-- The split flags chosen by process111Sorted for a surviving triple. -/
structure SplitRes where
  split : Bool
  split1 : Bool
  split2 : Bool
  split3 : Bool
deriving DecidableEq

/-- The split decision of process111Sorted (source lines 706..822).
The C++ assigns s1ps3 and d2split through short-circuit side effects while
evaluating the split3 condition; both are reproduced here by their reached
values: they are set exactly when the first split3 disjunct was evaluated
and false, i.e. when s3 > 0 and not s3 > d2*b. -/
def splitTriple (P : Params) (ops : NumOps)
    (d1sq d2sq d3sq d2 s1 s2 s3 : ℚ) : SplitRes :=
  let split3 : Bool := decide (s3 > 0 ∧
    (s3 > d2 * P.b ∨
     (s1 + s3 > 0 ∧ s1 + s3 > d2 * P.b ∧ s3 ≥ s1) ∨
     (P.bu < P.b ∧ sq s3 * d3sq > sq (P.bu * d2sq)) ∨
     (P.bv < P.b ∧ s3 > d2 * P.bv)))
  if split3 then
    -- factor2 = 0.7 of the source
    let temp := (7/10 : ℚ) * sq s3 * d3sq
    ⟨true, decide (sq s1 * d2sq > temp), decide (sq s2 * d2sq > temp), true⟩
  else if s1 > 0 ∨ s2 > 0 then
    let d2split : Bool :=
      decide (s3 > 0 ∧ ¬(s3 > d2 * P.b) ∧ s1 + s3 > 0 ∧ s1 + s3 > d2 * P.b)
    let s1ps3 : ℚ := if s3 > 0 ∧ ¬(s3 > d2 * P.b) then s1 + s3 else 0
    let split1a : Bool := decide (s1 > 0 ∧
      (d2split = true ∨ (s3 = 0 ∧ s3 > d2 * P.b) ∨ sq s1 > d3sq))
    let split2a : Bool := decide (s2 > 0 ∧
      (sq s2 > d3sq ∨
       (s2 > s3 ∧ d3sq > sq (d2 - s2 + s3)) ∨
       (s2 > s1 ∧ d1sq < sq (d2 + s2 - s1))))
    let d3 := ops.sqrt d3sq
    let u := d3 / d2
    let d1 := ops.sqrt d1sq
    let v := (d1 - d2) / d3
    let sp : Bool := split1a || split2a ||
      decide (sq (s1 + s2 + s1ps3 * u) > d2sq * P.busq) ||
      decide (sq ((s1 + s2) * (1 + v)) > d3sq * P.bvsq)
    if sp then ⟨true, split1a || decide (s1 ≥ s2), split2a || decide (s2 ≥ s1), false⟩
    else ⟨false, false, false, false⟩
  else ⟨false, false, false, false⟩

/-- The binning arithmetic of the commit tail (source lines 954..1002):
the bin indices kr, ku, kv with their rounding guards, the CCW sign step,
and the flat index.  Packaged as the Event the commit would record. -/
def mkEvent (P : Params) (ops : NumOps) (self : ℕ) (c1 c2 c3 : Cell)
    (d1 d2 d3 u v : ℚ) : Event :=
  let logr := ops.log d2
  let kr0 : ℤ := ⌊(logr - P.logminsep) / P.binsize⌋
  let kr : ℤ := if kr0 = (P.nbins : ℤ) then kr0 - 1 else kr0
  let ku0 : ℤ := ⌊(u - P.minu) / P.ubinsize⌋
  let ku : ℤ := if ku0 ≥ (P.nubins : ℤ) then ku0 - 1 else ku0
  let kv0 : ℤ := ⌊(v - P.minv) / P.vbinsize⌋
  let kv1 : ℤ := if kv0 ≥ (P.nvbins : ℤ) then kv0 - 1 else kv0
  let cc : Bool := ops.ccw c1.pos c2.pos c3.pos
  let v2 : ℚ := if cc then v else -v
  let kv2 : ℤ := if cc then kv1 + (P.nvbins : ℤ) else (P.nvbins : ℤ) - kv1 - 1
  let index : ℤ := kr * (P.nuv : ℤ) + ku * (P.nvbins2 : ℤ) + kv2
  ⟨self, c1, c2, c3, d1, d2, d3, logr, u, v, cc, v2, kr, ku, kv1, kv2, index⟩

/-- The commit tail of process111Sorted (source lines 937..1011): the final
range checks on d2, u, v, then the binning arithmetic of mkEvent, then the
defensive index guard.  Returns the committed Event, or none if the
contribution is rejected or dropped. -/
def commitStep (P : Params) (ops : NumOps) (self : ℕ) (c1 c2 c3 : Cell)
    (d1 d2 d3 u v : ℚ) : Option Event :=
  if d2 < P.minsep ∨ d2 ≥ P.maxsep then none
  else if u < P.minu ∨ u ≥ P.maxu then none
  else if v < P.minv ∨ v ≥ P.maxv then none
  else
    let e := mkEvent P ops self c1 c2 c3 d1 d2 d3 u v
    if e.index < 0 ∨ e.index ≥ (P.ntot : ℤ) then none
    else some e

/-- A pending call of one of the four mutually recursive procedures,
with the accumulator slots it addresses. -/
inductive Call where
  | p3 (self : ℕ) (c1 : Cell)
  | p12 (self b212 b221 : ℕ) (c1 c2 : Cell)
  | p111 (self a132 a213 a231 a312 a321 : ℕ) (c1 c2 c3 : Cell) (d1sq d2sq d3sq : ℚ)
  | pS (self a132 a213 a231 a312 a321 : ℕ) (c1 c2 c3 : Cell) (d1sq d2sq d3sq : ℚ)

/-- One evaluation step of the mutually recursive core of Corr3.cpp:
given a pending call of process3 (p3), process12 (p12), process111 (p111)
or process111Sorted (pS), either halt with an immediate result (early
return, failed child-access assertion, or the commit tail) or produce the
ordered list of recursive calls whose effects are sequenced.  Translated
branch for branch from the source. -/
inductive Plan where
  | halt (r : Res)
  | calls (l : List Call)

def plan (P : Params) (ops : NumOps) : Call → Plan
  | .p3 self c1 =>
    if c1.getW = 0 then .halt ⟨[], .ok⟩
    else if c1.size < P.halfminsep then .halt ⟨[], .ok⟩
    else match c1 with
      | .leaf _ _ _ _ => .halt ⟨[], .bad .s3⟩
      | .node _ _ _ _ l r =>
        .calls [.p3 self l, .p3 self r,
                .p12 self self self l r, .p12 self self self r l]
  | .p12 self b212 b221 c1 c2 =>
    if c1.getW = 0 then .halt ⟨[], .ok⟩
    else if c2.getW = 0 then .halt ⟨[], .ok⟩
    else if c2.size = 0 then .halt ⟨[], .ok⟩
    else if c2.size < P.halfmind3 then .halt ⟨[], .ok⟩
    else
      let s1 := c1.size
      let s2 := c2.size
      let dsq := ops.distsq c1.pos c2.pos s1 s2
      if dsq < P.minsepsq ∧ s1 + s2 < P.minsep ∧ dsq < sq (P.minsep - (s1 + s2)) then
        .halt ⟨[], .ok⟩
      else if dsq ≥ P.maxsepsq ∧ dsq ≥ sq (P.maxsep + (s1 + s2)) then .halt ⟨[], .ok⟩
      else if dsq > sq (s1 + s2) ∧ P.minusq * dsq > sq (2 * s2 + P.minu * (s1 + s2)) then
        .halt ⟨[], .ok⟩
      else match c2 with
        | .leaf _ _ _ _ => .halt ⟨[], .bad .s12⟩
        | .node _ _ _ _ l r =>
          .calls [.p12 self b212 b221 c1 l, .p12 self b212 b221 c1 r,
                  .p111 self self b212 b221 b212 b221 c1 l r 0 0 0]
  | .p111 self a132 a213 a231 a312 a321 c1 c2 c3 d1sq0 d2sq0 d3sq0 =>
    if c1.getW = 0 then .halt ⟨[], .ok⟩
    else if c2.getW = 0 then .halt ⟨[], .ok⟩
    else if c3.getW = 0 then .halt ⟨[], .ok⟩
    else
      let d1sq := if d1sq0 = 0 then ops.distsq c2.pos c3.pos 0 0 else d1sq0
      let d2sq := if d2sq0 = 0 then ops.distsq c1.pos c3.pos 0 0 else d2sq0
      let d3sq := if d3sq0 = 0 then ops.distsq c1.pos c2.pos 0 0 else d3sq0
      if d1sq > d2sq then
        if d2sq > d3sq then
          .calls [.pS self a132 a213 a231 a312 a321 c1 c2 c3 d1sq d2sq d3sq]
        else if d1sq > d3sq then
          .calls [.pS a132 self a312 a321 a213 a231 c1 c3 c2 d1sq d3sq d2sq]
        else
          .calls [.pS a312 a321 a132 self a231 a213 c3 c1 c2 d3sq d1sq d2sq]
      else
        if d1sq > d3sq then
          .calls [.pS a213 a231 self a132 a321 a312 c2 c1 c3 d2sq d1sq d3sq]
        else if d2sq > d3sq then
          .calls [.pS a231 a213 a321 a312 self a132 c2 c3 c1 d2sq d3sq d1sq]
        else
          .calls [.pS a321 a312 a231 a213 a132 self c3 c2 c1 d3sq d2sq d1sq]
  | .pS self a132 a213 a231 a312 a321 c1 c2 c3 d1sq d2sq d3sq =>
    let s1 := c1.size
    let s2 := c2.size
    let s3 := c3.size
    let d2 := ops.sqrt d2sq
    if stop111 P d1sq d2sq d3sq d2 s1 s2 s3 then .halt ⟨[], .ok⟩
    else
      let sr := splitTriple P ops d1sq d2sq d3sq d2 s1 s2 s3
      if sr.split then
        if sr.split3 then
          match c3 with
          | .leaf _ _ _ _ => .halt ⟨[], .bad .sS⟩
          | .node _ _ _ _ l3 r3 =>
            if sr.split2 then
              match c2 with
              | .leaf _ _ _ _ => .halt ⟨[], .bad .sS⟩
              | .node _ _ _ _ l2 r2 =>
                if sr.split1 then
                  match c1 with
                  | .leaf _ _ _ _ => .halt ⟨[], .bad .sS⟩
                  | .node _ _ _ _ l1 r1 =>
                    .calls [.p111 self a132 a213 a231 a312 a321 l1 l2 l3 0 0 0,
                            .p111 self a132 a213 a231 a312 a321 l1 l2 r3 0 0 0,
                            .p111 self a132 a213 a231 a312 a321 l1 r2 l3 0 0 0,
                            .p111 self a132 a213 a231 a312 a321 l1 r2 r3 0 0 0,
                            .p111 self a132 a213 a231 a312 a321 r1 l2 l3 0 0 0,
                            .p111 self a132 a213 a231 a312 a321 r1 l2 r3 0 0 0,
                            .p111 self a132 a213 a231 a312 a321 r1 r2 l3 0 0 0,
                            .p111 self a132 a213 a231 a312 a321 r1 r2 r3 0 0 0]
                else
                  .calls [.p111 self a132 a213 a231 a312 a321 c1 l2 l3 0 0 0,
                          .p111 self a132 a213 a231 a312 a321 c1 l2 r3 0 0 0,
                          .p111 self a132 a213 a231 a312 a321 c1 r2 l3 0 0 0,
                          .p111 self a132 a213 a231 a312 a321 c1 r2 r3 0 0 0]
            else
              if sr.split1 then
                match c1 with
                | .leaf _ _ _ _ => .halt ⟨[], .bad .sS⟩
                | .node _ _ _ _ l1 r1 =>
                  .calls [.p111 self a132 a213 a231 a312 a321 l1 c2 l3 0 0 0,
                          .p111 self a132 a213 a231 a312 a321 l1 c2 r3 0 0 0,
                          .p111 self a132 a213 a231 a312 a321 r1 c2 l3 0 0 0,
                          .p111 self a132 a213 a231 a312 a321 r1 c2 r3 0 0 0]
              else
                .calls [.p111 self a132 a213 a231 a312 a321 c1 c2 l3 0 0 d3sq,
                        .p111 self a132 a213 a231 a312 a321 c1 c2 r3 0 0 d3sq]
        else
          if sr.split2 then
            match c2 with
            | .leaf _ _ _ _ => .halt ⟨[], .bad .sS⟩
            | .node _ _ _ _ l2 r2 =>
              if sr.split1 then
                match c1 with
                | .leaf _ _ _ _ => .halt ⟨[], .bad .sS⟩
                | .node _ _ _ _ l1 r1 =>
                  .calls [.p111 self a132 a213 a231 a312 a321 l1 l2 c3 0 0 0,
                          .p111 self a132 a213 a231 a312 a321 l1 r2 c3 0 0 0,
                          .p111 self a132 a213 a231 a312 a321 r1 l2 c3 0 0 0,
                          .p111 self a132 a213 a231 a312 a321 r1 r2 c3 0 0 0]
              else
                .calls [.p111 self a132 a213 a231 a312 a321 c1 l2 c3 0 d2sq 0,
                        .p111 self a132 a213 a231 a312 a321 c1 r2 c3 0 d2sq 0]
          else
            match c1 with
            | .leaf _ _ _ _ => .halt ⟨[], .bad .sS⟩
            | .node _ _ _ _ l1 r1 =>
              .calls [.p111 self a132 a213 a231 a312 a321 l1 c2 c3 d1sq 0 0,
                      .p111 self a132 a213 a231 a312 a321 r1 c2 c3 d1sq 0 0]
      else
        let d1 := ops.sqrt d1sq
        let d3 := ops.sqrt d3sq
        let u := d3 / d2
        let v := (d1 - d2) / d3
        match commitStep P ops self c1 c2 c3 d1 d2 d3 u v with
        | none => .halt ⟨[], .ok⟩
        | some e => .halt ⟨[e], .ok⟩

/-- Sequence a list of results in order (stopping at the first that is
not ok, as mutation stops there). -/
def seqList : List Res → Res
  | [] => ⟨[], .ok⟩
  | r :: rest => r.seq (seqList rest)

/-- The mutually recursive core of Corr3.cpp: run a pending call by
stepping its plan, with an explicit fuel bound on the recursion depth. -/
def exec (P : Params) (ops : NumOps) : ℕ → Call → Res
  | 0, _ => ⟨[], .out⟩
  | fuel+1, cl =>
    match plan P ops cl with
    | .halt r => r
    | .calls l => seqList (l.map (exec P ops fuel))

/-- process3 of the source: all triangles inside one cell. -/
def process3 (P : Params) (ops : NumOps) (fuel : ℕ) (self : ℕ) (c1 : Cell) : Res :=
  exec P ops fuel (.p3 self c1)

/-- process12 of the source: one point in c1, two in c2. -/
def process12 (P : Params) (ops : NumOps) (fuel : ℕ) (self b212 b221 : ℕ)
    (c1 c2 : Cell) : Res :=
  exec P ops fuel (.p12 self b212 b221 c1 c2)

/-- process111 of the source: the unsorted entry of the triple recursion. -/
def process111 (P : Params) (ops : NumOps) (fuel : ℕ)
    (self a132 a213 a231 a312 a321 : ℕ) (c1 c2 c3 : Cell)
    (d1sq d2sq d3sq : ℚ) : Res :=
  exec P ops fuel (.p111 self a132 a213 a231 a312 a321 c1 c2 c3 d1sq d2sq d3sq)

/-- process111Sorted of the source, on a sorted triple. -/
def process111Sorted (P : Params) (ops : NumOps) (fuel : ℕ)
    (self a132 a213 a231 a312 a321 : ℕ) (c1 c2 c3 : Cell)
    (d1sq d2sq d3sq : ℚ) : Res :=
  exec P ops fuel (.pS self a132 a213 a231 a312 a321 c1 c2 c3 d1sq d2sq d3sq)

/-- Run a list of pending calls in order, sequencing their effects. -/
def runCalls (P : Params) (ops : NumOps) (fuel : ℕ) (l : List Call) : Res :=
  seqList (l.map (exec P ops fuel))

/-- The k-loop of the auto driver: process111 on (c1, c2, c) for each later
top-level cell c, all six accumulator slots being the single slot 0. -/
def autoTriples (c1 c2 : Cell) : List Cell → List Call
  | [] => []
  | c3 :: rest => .p111 0 0 0 0 0 0 c1 c2 c3 0 0 0 :: autoTriples c1 c2 rest

/-- The j-loop of the auto driver: process12 both ways on (c1, c2), then
the k-loop, for each later top-level cell c2. -/
def autoPairs (c1 : Cell) : List Cell → List Call
  | [] => []
  | c2 :: rest =>
    .p12 0 0 0 c1 c2 :: .p12 0 0 0 c2 c1 ::
      (autoTriples c1 c2 rest ++ autoPairs c1 rest)

/-- The i-loop of the auto driver: process3 on each top-level cell, then
the j-loop over the later cells. -/
def autoCalls : List Cell → List Call
  | [] => []
  | c1 :: rest => .p3 0 c1 :: (autoPairs c1 rest ++ autoCalls rest)

/-- The auto entry point BaseCorr3::process(field): single-threaded body of
the driver loop over the top-level cells of one field. -/
def processAuto (P : Params) (ops : NumOps) (fuel : ℕ) (cells : List Cell) : Res :=
  runCalls P ops fuel (autoCalls cells)

/-- The k-loop of the cross-12 driver; accumulator slots: 0 = bc122,
1 = bc212, 2 = bc221, routed as in the source (3 plays the role of 2). -/
def cross12Triples (c1 c2 : Cell) : List Cell → List Call
  | [] => []
  | c3 :: rest => .p111 0 0 1 2 1 2 c1 c2 c3 0 0 0 :: cross12Triples c1 c2 rest

/-- The j-loop of the cross-12 driver over the cells of the second field. -/
def cross12Inner (c1 : Cell) : List Cell → List Call
  | [] => []
  | c2 :: rest => .p12 0 1 2 c1 c2 :: (cross12Triples c1 c2 rest ++ cross12Inner c1 rest)

/-- The i-loop of the cross-12 driver over the cells of the first field. -/
def cross12Calls (f2 : List Cell) : List Cell → List Call
  | [] => []
  | c1 :: rest => cross12Inner c1 f2 ++ cross12Calls f2 rest

/-- The cross-12 entry point BaseCorr3::process(field1, field2). -/
def processCross12 (P : Params) (ops : NumOps) (fuel : ℕ)
    (f1 f2 : List Cell) : Res :=
  runCalls P ops fuel (cross12Calls f2 f1)

/-- The k-loop of the cross-111 driver; slots 0..5 are the six sibling
accumulators bc123, bc132, bc213, bc231, bc312, bc321. -/
def cross111Triples (c1 c2 : Cell) : List Cell → List Call
  | [] => []
  | c3 :: rest => .p111 0 1 2 3 4 5 c1 c2 c3 0 0 0 :: cross111Triples c1 c2 rest

/-- The j-loop of the cross-111 driver. -/
def cross111Inner (c1 : Cell) (f3 : List Cell) : List Cell → List Call
  | [] => []
  | c2 :: rest => cross111Triples c1 c2 f3 ++ cross111Inner c1 f3 rest

/-- The i-loop of the cross-111 driver. -/
def cross111Calls (f2 f3 : List Cell) : List Cell → List Call
  | [] => []
  | c1 :: rest => cross111Inner c1 f3 f2 ++ cross111Calls f2 f3 rest

/-- The cross-111 entry point BaseCorr3::process(field1, field2, field3). -/
def processCross111 (P : Params) (ops : NumOps) (fuel : ℕ)
    (f1 f2 f3 : List Cell) : Res :=
  runCalls P ops fuel (cross111Calls f2 f3 f1)

/-! ### Concrete collaborator instances for concrete runs -/

/-- Modelled from the spec: MetricHelper(Euclidean) DistSq (section 4.1,
not under src/) returns the exact squared distance between the centers;
the size arguments are unused for the flat metric. -/
def flatDistSq (p1 p2 : Pos) (_ _ : ℚ) : ℚ :=
  sq (p1.1 - p2.1) + sq (p1.2 - p2.2)

/-- Modelled from the spec: MetricHelper(Euclidean) CCW (section 4.1, not
under src/) reports whether the three points are in counter-clockwise
order; here by the sign of the planar cross product. -/
def flatCCW (p1 p2 p3 : Pos) : Bool :=
  decide ((p2.1 - p1.1) * (p3.2 - p1.2) - (p2.2 - p1.2) * (p3.1 - p1.1) > 0)

/-- Integer square root by bounded search (kernel-computable); exact on
perfect squares, which is all the concrete runs below use. -/
def isqrt (n : ℕ) : ℕ :=
  ((List.range (n + 1)).filter fun k => k * k ≤ n).foldr max 0

/-- A concrete stand-in for libm sqrt: exact on rationals whose numerator
and denominator are perfect squares. -/
def ratSqrt (q : ℚ) : ℚ := (isqrt q.num.toNat : ℚ) / (isqrt q.den : ℚ)

/-- A concrete stand-in for libm log, constantly 0; the engine only feeds
log values into bin arithmetic and accumulated means, never back into the
geometry. -/
def zeroLog (_ : ℚ) : ℚ := 0

/-- The concrete collaborator bundle used by the concrete runs. -/
def testOps : NumOps := ⟨flatDistSq, flatCCW, ratSqrt, zeroLog⟩

/-! ### The accumulator and the kernel commit -/

/-- The per-bin arrays of one Corr3 accumulator that every kernel shares
(the NNN kernel adds no zeta payload: its ProcessZeta is empty). -/
structure Acc where
  meand1 : ℕ → ℚ
  meanlogd1 : ℕ → ℚ
  meand2 : ℕ → ℚ
  meanlogd2 : ℕ → ℚ
  meand3 : ℕ → ℚ
  meanlogd3 : ℕ → ℚ
  meanu : ℕ → ℚ
  meanv : ℕ → ℚ
  weight : ℕ → ℚ
  ntri : ℕ → ℚ

/-- A zeroed accumulator. -/
def zeroAcc : Acc :=
  ⟨fun _ => 0, fun _ => 0, fun _ => 0, fun _ => 0, fun _ => 0,
   fun _ => 0, fun _ => 0, fun _ => 0, fun _ => 0, fun _ => 0⟩

/-- Corr3::finishProcess for the count kernel: the per-bin updates applied
by one kernel commit at the committed flat index. -/
def finishProcessN (ops : NumOps) (e : Event) (a : Acc) : Acc :=
  let i := e.index.toNat
  let nnn : ℚ := (e.c1.getN : ℚ) * (e.c2.getN : ℚ) * (e.c3.getN : ℚ)
  let www : ℚ := e.c1.getW * e.c2.getW * e.c3.getW
  { meand1 := Function.update a.meand1 i (a.meand1 i + www * e.d1),
    meanlogd1 := Function.update a.meanlogd1 i (a.meanlogd1 i + www * ops.log e.d1),
    meand2 := Function.update a.meand2 i (a.meand2 i + www * e.d2),
    meanlogd2 := Function.update a.meanlogd2 i (a.meanlogd2 i + www * e.logr),
    meand3 := Function.update a.meand3 i (a.meand3 i + www * e.d3),
    meanlogd3 := Function.update a.meanlogd3 i (a.meanlogd3 i + www * ops.log e.d3),
    meanu := Function.update a.meanu i (a.meanu i + www * e.u),
    meanv := Function.update a.meanv i (a.meanv i + www * e.v),
    weight := Function.update a.weight i (a.weight i + www),
    ntri := Function.update a.ntri i (a.ntri i + nnn) }

/-- A store of accumulators, one per slot. -/
abbrev Store := ℕ → Acc

/-- The all-zero store. -/
def zeroStore : Store := fun _ => zeroAcc

/-- Apply one kernel commit to the accumulator in its slot. -/
def applyEvent (ops : NumOps) (st : Store) (e : Event) : Store :=
  Function.update st e.slot (finishProcessN ops e (st e.slot))

/-- Apply the commits of a run in order. -/
def applyEvents (ops : NumOps) (l : List Event) (st : Store) : Store :=
  l.foldl (applyEvent ops) st

/-- Total ntri of one accumulator, summed over its ntot bins. -/
def binTotalNtri (ntot : ℕ) (a : Acc) : ℚ :=
  ∑ i ∈ Finset.range ntot, a.ntri i

/-- Total ntri over a set of accumulator slots. -/
def storeTotalNtri (S : Finset ℕ) (ntot : ℕ) (st : Store) : ℚ :=
  ∑ s ∈ S, binTotalNtri ntot (st s)

/-- The unweighted triple count n1*n2*n3 contributed by one commit. -/
def nnnQ (e : Event) : ℚ := (e.c1.getN : ℚ) * (e.c2.getN : ℚ) * (e.c3.getN : ℚ)

/-- Sum of the triple counts of a list of commits. -/
def nnnSum (l : List Event) : ℚ := (l.map nnnQ).sum

/-! ### Tree and run side conditions -/

/-- The field/tree invariant used by the counting results: every leaf holds
a single point and has bounding size 0, every cell has nonzero total
weight, and an internal cell's count is the sum of its children's. -/
def goodTree : Cell → Bool
  | .leaf _ s w n => decide (s = 0 ∧ n = 1 ∧ w ≠ 0)
  | .node _ _ w n l r =>
    (decide (n = l.getN + r.getN ∧ w ≠ 0)) && goodTree l && goodTree r

/-- All leaves of the cell have size 0 (part of the cell-view contract:
size is 0 iff the cell is a leaf of coincident points). -/
def leavesZero : Cell → Bool
  | .leaf _ s _ _ => decide (s = 0)
  | .node _ _ _ _ l r => leavesZero l && leavesZero r

/-- C(n,2) as a rational. -/
def q2 (n : ℕ) : ℚ := (n : ℚ) * ((n : ℚ) - 1) / 2

/-- C(n,3) as a rational. -/
def q3 (n : ℕ) : ℚ := (n : ℚ) * ((n : ℚ) - 1) * ((n : ℚ) - 2) / 6

/-- Total point count of a field given as its list of top-level cells. -/
def sumN (l : List Cell) : ℕ := (l.map Cell.getN).sum

/-- All points of the cell carry weight 1: leaves have weight 1 and the
internal weights are consistent sums. -/
def unitW : Cell → Bool
  | .leaf _ _ w _ => decide (w = 1)
  | .node _ _ w _ l r => (decide (w = l.getW + r.getW)) && unitW l && unitW r

/-- The exact triple count a call covers (what its commits must sum to
when nothing is pruned). -/
def callValue : Call → ℚ
  | .p3 _ c1 => q3 c1.getN
  | .p12 _ _ _ c1 c2 => (c1.getN : ℚ) * q2 c2.getN
  | .p111 _ _ _ _ _ _ c1 c2 c3 _ _ _ => (c1.getN : ℚ) * (c2.getN : ℚ) * (c3.getN : ℚ)
  | .pS _ _ _ _ _ _ c1 c2 c3 _ _ _ => (c1.getN : ℚ) * (c2.getN : ℚ) * (c3.getN : ℚ)

/-- The cells a call touches. -/
def callCells : Call → List Cell
  | .p3 _ c1 => [c1]
  | .p12 _ _ _ c1 c2 => [c1, c2]
  | .p111 _ _ _ _ _ _ c1 c2 c3 _ _ _ => [c1, c2, c3]
  | .pS _ _ _ _ _ _ c1 c2 c3 _ _ _ => [c1, c2, c3]

/-- All cells of the call satisfy the tree invariant. -/
def goodCall (cl : Call) : Bool := (callCells cl).all goodTree

/-- The accumulator slots a call addresses. -/
def callIds : Call → List ℕ
  | .p3 self _ => [self]
  | .p12 self b212 b221 _ _ => [self, b212, b221]
  | .p111 self a132 a213 a231 a312 a321 _ _ _ _ _ _ =>
    [self, a132, a213, a231, a312, a321]
  | .pS self a132 a213 a231 a312 a321 _ _ _ _ _ _ =>
    [self, a132, a213, a231, a312, a321]

/-- The no-pruning predicate: the call, and every call it spawns, never
halts except with an ok status whose committed triple count is exactly the
count the call covers.  In particular no early return ever discards a
triple (halting with no commits forces the covered count to be zero), no
child-access assertion fires, every surviving triple commits inside the
binning ranges, and no commit is dropped by the index guard. -/
def noPrune (P : Params) (ops : NumOps) : ℕ → Call → Bool
  | 0, _ => false
  | fuel+1, cl =>
    match plan P ops cl with
    | .halt r => decide (r.status = .ok ∧ nnnSum r.events = callValue cl)
    | .calls l => l.all (noPrune P ops fuel)

/-- A fuel budget, linear in the cell depths, that theorem c8 proves
sufficient for the call to run to completion. -/
def fuelBound : Call → ℕ
  | .p3 _ c1 => 6 * c1.cdepth + 6
  | .p12 _ _ _ c1 c2 => 2 * c1.cdepth + 4 * c2.cdepth + 5
  | .p111 _ _ _ _ _ _ c1 c2 c3 _ _ _ => 2 * (c1.cdepth + c2.cdepth + c3.cdepth) + 3
  | .pS _ _ _ _ _ _ c1 c2 c3 _ _ _ => 2 * (c1.cdepth + c2.cdepth + c3.cdepth) + 2

/-! ### The full Corr3 object and its element-wise addition -/

/-- A full Corr3 accumulator object: binning parameters, coordinate tag,
zeta payload (up to 8 arrays) and the shared per-bin arrays. -/
structure Corr3Full where
  params : Params
  coords : ℤ
  zeta : Fin 8 → ℕ → ℚ
  arrays : Acc

/-- Element-wise addition over the first ntot entries of one array, as one
loop of Corr3::operator+= performs. -/
def addArr (ntot : ℕ) (f g : ℕ → ℚ) : ℕ → ℚ :=
  fun i => if i < ntot then f i + g i else f i

/-- Corr3::operator+=: element-wise addition of every per-bin array over
the receiver's ntot entries; parameters and coordinate tag untouched.
The zeta part delegates to ZetaData::add, which is not under src/ and is
modelled from the spec (section 4.8: element-wise addition over all
arrays). -/
def Corr3Full.add (a rhs : Corr3Full) : Corr3Full :=
  let n := a.params.ntot
  { params := a.params,
    coords := a.coords,
    zeta := fun k => addArr n (a.zeta k) (rhs.zeta k),
    arrays :=
      { meand1 := addArr n a.arrays.meand1 rhs.arrays.meand1,
        meanlogd1 := addArr n a.arrays.meanlogd1 rhs.arrays.meanlogd1,
        meand2 := addArr n a.arrays.meand2 rhs.arrays.meand2,
        meanlogd2 := addArr n a.arrays.meanlogd2 rhs.arrays.meanlogd2,
        meand3 := addArr n a.arrays.meand3 rhs.arrays.meand3,
        meanlogd3 := addArr n a.arrays.meanlogd3 rhs.arrays.meanlogd3,
        meanu := addArr n a.arrays.meanu rhs.arrays.meanu,
        meanv := addArr n a.arrays.meanv rhs.arrays.meanv,
        weight := addArr n a.arrays.weight rhs.arrays.weight,
        ntri := addArr n a.arrays.ntri rhs.arrays.ntri } }

/-! ### The spin-2 (GGG) kernel commit -/

/-- Complex multiplication on real/imaginary pairs. -/
def cmulQ (a b : ℚ × ℚ) : ℚ × ℚ := (a.1 * b.1 - a.2 * b.2, a.1 * b.2 + a.2 * b.1)

/-- Complex conjugation on real/imaginary pairs. -/
def conjQ (a : ℚ × ℚ) : ℚ × ℚ := (a.1, -a.2)

/-- The eight real increments of one GGG kernel commit. -/
structure GGGInc where
  gam0r : ℚ
  gam0i : ℚ
  gam1r : ℚ
  gam1i : ℚ
  gam2r : ℚ
  gam2i : ℚ
  gam3r : ℚ
  gam3i : ℚ
deriving DecidableEq

/-- DirectHelper(GData,GData,GData)::ProcessZeta after projection: the
optimized 12-multiply computation of the increments added to the eight
gamma arrays, transcribed from source lines 1066..1092. -/
def processZetaGGG (g1 g2 g3 : ℚ × ℚ) : GGGInc :=
  let g1rg2r := g1.1 * g2.1
  let g1rg2i := g1.1 * g2.2
  let g1ig2r := g1.2 * g2.1
  let g1ig2i := g1.2 * g2.2
  let g1g2r := g1rg2r - g1ig2i
  let g1g2i := g1rg2i + g1ig2r
  let g1cg2r := g1rg2r + g1ig2i
  let g1cg2i := g1rg2i - g1ig2r
  let g1g2rg3r := g1g2r * g3.1
  let g1g2rg3i := g1g2r * g3.2
  let g1g2ig3r := g1g2i * g3.1
  let g1g2ig3i := g1g2i * g3.2
  let g1cg2rg3r := g1cg2r * g3.1
  let g1cg2rg3i := g1cg2r * g3.2
  let g1cg2ig3r := g1cg2i * g3.1
  let g1cg2ig3i := g1cg2i * g3.2
  { gam0r := g1g2rg3r - g1g2ig3i,
    gam0i := g1g2rg3i + g1g2ig3r,
    gam1r := g1cg2rg3r - g1cg2ig3i,
    gam1i := g1cg2rg3i + g1cg2ig3r,
    gam2r := g1cg2rg3r + g1cg2ig3i,
    gam2i := g1cg2rg3i - g1cg2ig3r,
    gam3r := g1g2rg3r + g1g2ig3i,
    gam3i := -g1g2rg3i + g1g2ig3r }

/-! ### Basic lemmas about sequencing and sums -/

theorem nnnSum_nil : nnnSum [] = 0 := rfl

theorem nnnSum_append (l1 l2 : List Event) :
    nnnSum (l1 ++ l2) = nnnSum l1 + nnnSum l2 := by
  simp [nnnSum]

theorem nnnSum_single (e : Event) : nnnSum [e] = nnnQ e := by
  simp [nnnSum]

theorem Res.seq_mem {e : Event} (r1 r2 : Res) (h : e ∈ (r1.seq r2).events) :
    e ∈ r1.events ∨ e ∈ r2.events := by
  unfold Res.seq at h
  rcases hs : r1.status with _ | s | _ <;> rw [hs] at h <;> simp_all

theorem Res.seq_ok {r1 r2 : Res} (h1 : r1.status = .ok) (h2 : r2.status = .ok) :
    (r1.seq r2).status = .ok ∧
      nnnSum (r1.seq r2).events = nnnSum r1.events + nnnSum r2.events := by
  unfold Res.seq
  rw [h1]
  exact ⟨h2, nnnSum_append _ _⟩

theorem Res.seq_ne_out {r1 r2 : Res} (h1 : r1.status ≠ .out) (h2 : r2.status ≠ .out) :
    (r1.seq r2).status ≠ .out := by
  unfold Res.seq
  rcases hs : r1.status with _ | s | _
  · exact h2
  · simpa [hs] using h1
  · exact absurd hs h1

theorem Res.seq_ne_bad {r1 r2 : Res} (st : Site) (h1 : r1.status ≠ .bad st)
    (h2 : r2.status ≠ .bad st) : (r1.seq r2).status ≠ .bad st := by
  unfold Res.seq
  rcases hs : r1.status with _ | s | _
  · exact h2
  · simpa [hs] using h1
  · simp [hs]

theorem Res.seq_empty_ok (r : Res) : r.seq ⟨[], .ok⟩ = r := by
  rcases r with ⟨ev, st⟩
  cases st <;> simp [Res.seq]

/-! ### Claim C6: spin-2 kernel equivalence -/

/-- C6: for every complex inputs g1, g2, g3 (the projected values), the
eight real increments of the optimized 12-multiply GGG commit equal the
real and imaginary parts of the naive complex products
gamma0 = g1*g2*g3, gamma1 = conj(g1)*g2*g3, gamma2 = g1*conj(g2)*g3,
gamma3 = g1*g2*conj(g3). -/
theorem c6_spin2_kernel_equivalence (g1 g2 g3 : ℚ × ℚ) :
    ((processZetaGGG g1 g2 g3).gam0r, (processZetaGGG g1 g2 g3).gam0i) =
      cmulQ (cmulQ g1 g2) g3 ∧
    ((processZetaGGG g1 g2 g3).gam1r, (processZetaGGG g1 g2 g3).gam1i) =
      cmulQ (cmulQ (conjQ g1) g2) g3 ∧
    ((processZetaGGG g1 g2 g3).gam2r, (processZetaGGG g1 g2 g3).gam2i) =
      cmulQ (cmulQ g1 (conjQ g2)) g3 ∧
    ((processZetaGGG g1 g2 g3).gam3r, (processZetaGGG g1 g2 g3).gam3i) =
      cmulQ (cmulQ g1 g2) (conjQ g3) := by
  refine ⟨?_, ?_, ?_, ?_⟩ <;>
    simp only [processZetaGGG, cmulQ, conjQ, Prod.mk.injEq] <;>
    exact ⟨by ring, by ring⟩

/-! ### Claim C9: frame of accumulator addition -/

/-- C9: Corr3::operator+= with equal ntot adds rhs's per-bin arrays
(zeta payload and the ten shared arrays) element-wise into the receiver
over the ntot bins, leaves entries beyond ntot alone, and leaves the
binning parameters and the coordinate tag unchanged.  (The rhs itself is
a read-only argument of the pure function, hence unmodified.) -/
theorem c9_add_frame (a rhs : Corr3Full) (h : a.params.ntot = rhs.params.ntot) :
    (a.add rhs).params = a.params ∧
    (a.add rhs).coords = a.coords ∧
    (∀ i < a.params.ntot,
      (∀ k, (a.add rhs).zeta k i = a.zeta k i + rhs.zeta k i) ∧
      (a.add rhs).arrays.meand1 i = a.arrays.meand1 i + rhs.arrays.meand1 i ∧
      (a.add rhs).arrays.meanlogd1 i = a.arrays.meanlogd1 i + rhs.arrays.meanlogd1 i ∧
      (a.add rhs).arrays.meand2 i = a.arrays.meand2 i + rhs.arrays.meand2 i ∧
      (a.add rhs).arrays.meanlogd2 i = a.arrays.meanlogd2 i + rhs.arrays.meanlogd2 i ∧
      (a.add rhs).arrays.meand3 i = a.arrays.meand3 i + rhs.arrays.meand3 i ∧
      (a.add rhs).arrays.meanlogd3 i = a.arrays.meanlogd3 i + rhs.arrays.meanlogd3 i ∧
      (a.add rhs).arrays.meanu i = a.arrays.meanu i + rhs.arrays.meanu i ∧
      (a.add rhs).arrays.meanv i = a.arrays.meanv i + rhs.arrays.meanv i ∧
      (a.add rhs).arrays.weight i = a.arrays.weight i + rhs.arrays.weight i ∧
      (a.add rhs).arrays.ntri i = a.arrays.ntri i + rhs.arrays.ntri i) ∧
    (∀ i, ¬ i < a.params.ntot →
      (∀ k, (a.add rhs).zeta k i = a.zeta k i) ∧
      (a.add rhs).arrays.meand1 i = a.arrays.meand1 i ∧
      (a.add rhs).arrays.meanlogd1 i = a.arrays.meanlogd1 i ∧
      (a.add rhs).arrays.meand2 i = a.arrays.meand2 i ∧
      (a.add rhs).arrays.meanlogd2 i = a.arrays.meanlogd2 i ∧
      (a.add rhs).arrays.meand3 i = a.arrays.meand3 i ∧
      (a.add rhs).arrays.meanlogd3 i = a.arrays.meanlogd3 i ∧
      (a.add rhs).arrays.meanu i = a.arrays.meanu i ∧
      (a.add rhs).arrays.meanv i = a.arrays.meanv i ∧
      (a.add rhs).arrays.weight i = a.arrays.weight i ∧
      (a.add rhs).arrays.ntri i = a.arrays.ntri i) := by
  refine ⟨rfl, rfl, ?_, ?_⟩
  · intro i hi
    refine ⟨fun k => ?_, ?_, ?_, ?_, ?_, ?_, ?_, ?_, ?_, ?_, ?_⟩ <;>
      simp [Corr3Full.add, addArr, hi]
  · intro i hi
    refine ⟨fun k => ?_, ?_, ?_, ?_, ?_, ?_, ?_, ?_, ?_, ?_, ?_⟩ <;>
      simp [Corr3Full.add, addArr, hi]

/-- A concrete full accumulator used to witness c9_add_frame. -/
def sampleFull : Corr3Full :=
  { params := mkParams testOps 1 100 1 1 (1/10) 0 1 2 (1/2) (1/10) 0 1 5 (1/5) (1/10),
    coords := -1,
    zeta := fun _ _ => 0,
    arrays := zeroAcc }

theorem c9_add_frame_witness :
    sampleFull.params.ntot = sampleFull.params.ntot ∧
    (sampleFull.add sampleFull).params = sampleFull.params := by
  exact ⟨rfl, (c9_add_frame sampleFull sampleFull rfl).1⟩

/-! ### Claim C3: the split-c3 decision -/

/-- The split3 flag of splitTriple is exactly the source's split3 condition. -/
theorem splitTriple_split3 (P : Params) (ops : NumOps) (d1sq d2sq d3sq d2 s1 s2 s3 : ℚ) :
    (splitTriple P ops d1sq d2sq d3sq d2 s1 s2 s3).split3 =
      decide (s3 > 0 ∧
        (s3 > d2 * P.b ∨
         (s1 + s3 > 0 ∧ s1 + s3 > d2 * P.b ∧ s3 ≥ s1) ∨
         (P.bu < P.b ∧ sq s3 * d3sq > sq (P.bu * d2sq)) ∨
         (P.bv < P.b ∧ s3 > d2 * P.bv))) := by
  simp only [splitTriple]
  split
  · next hcond =>
    rw [hcond]
  · next hcond =>
    have hf : decide (s3 > 0 ∧
        (s3 > d2 * P.b ∨
         (s1 + s3 > 0 ∧ s1 + s3 > d2 * P.b ∧ s3 ≥ s1) ∨
         (P.bu < P.b ∧ sq s3 * d3sq > sq (P.bu * d2sq)) ∨
         (P.bv < P.b ∧ s3 > d2 * P.bv))) = false := by
      simpa using hcond
    rw [hf]
    split_ifs <;> rfl

/-- Transcription of claim C3's split-c3 condition exactly as the claim
words it, reading d2 as the sorted middle side and d2-squared, d3-squared
as the squared side arguments: s3 > 0 and one of s3 > b*d2;
(s1+s3) > b*d2 with s3 >= s1; bu < b and s3^2*d3^2 > bu^2*d2^2;
bv < b and s3 > bv*d2. -/
def split3Claim (P : Params) (s1 s3 d2 d2sq d3sq : ℚ) : Bool :=
  decide (s3 > 0 ∧
    (s3 > P.b * d2 ∨
     (s1 + s3 > P.b * d2 ∧ s3 ≥ s1) ∨
     (P.bu < P.b ∧ sq s3 * d3sq > sq P.bu * d2sq) ∨
     (P.bv < P.b ∧ s3 > P.bv * d2)))

/-- The claim's condition with the one forced change: in the u-branch the
right-hand side is bu^2 * (d2^2)^2 (the source's SQR(bu*d2sq)), not
bu^2 * d2^2. -/
def split3Amended (P : Params) (s1 s3 d2 d2sq d3sq : ℚ) : Bool :=
  decide (s3 > 0 ∧
    (s3 > P.b * d2 ∨
     (s1 + s3 > P.b * d2 ∧ s3 ≥ s1) ∨
     (P.bu < P.b ∧ sq s3 * d3sq > sq (P.bu * d2sq)) ∨
     (P.bv < P.b ∧ s3 > P.bv * d2)))

/-- Parameters for the C3 counterexample: b = 2, bu = 1, bv = 2, with wide
separation and shape windows so that stop111 passes. -/
def pC3 : Params := mkParams testOps (1/100) 1000 1 1 2 0 1 1 1 1 0 1 1 1 2

/-- C3 counterexample: at the sorted triple d1sq = 4, d2sq = 4, d3sq = 1
(so d2 = 2 is the genuine square root), sizes s1 = s2 = 0, s3 = 3, which
survives stop111, the claim's condition selects c3 for splitting (its
u-branch reads 9 * 1 > 1 * 4) while the source does not split c3 (the
source's u-branch reads 9 * 1 > 16); the other three branches are false
on both sides. -/
theorem c3_split3_counterexample :
    (splitTriple pC3 testOps 4 4 1 2 0 0 3).split3 = false ∧
    split3Claim pC3 0 3 2 4 1 = true ∧
    stop111 pC3 4 4 1 2 0 0 3 = false ∧
    ((4:ℚ) ≥ 4 ∧ (4:ℚ) ≥ 1 ∧ (2:ℚ) * 2 = 4 ∧ (0:ℚ) ≤ 2 ∧ (0:ℚ) ≤ 3) := by
  refine ⟨by with_unfolding_all rfl, by with_unfolding_all rfl,
    by with_unfolding_all rfl, by norm_num⟩

/-- C3 (amended): for every sorted triple surviving stop111, with
nonnegative sizes and d2 the square root of d2sq, the source splits c3
iff s3 > 0 and one of: s3 > b*d2; (s1+s3) > b*d2 with s3 >= s1;
bu < b and s3^2*d3sq > bu^2*(d2sq)^2; bv < b and s3 > bv*d2. -/
theorem c3_split3_amended (P : Params) (ops : NumOps)
    (d1sq d2sq d3sq d2 s1 s2 s3 : ℚ)
    (hs1 : 0 ≤ s1) (hs3 : 0 ≤ s3)
    (hd2 : d2 * d2 = d2sq) (hd2pos : 0 ≤ d2)
    (hsort1 : d1sq ≥ d2sq) (hsort2 : d2sq ≥ d3sq)
    (hstop : stop111 P d1sq d2sq d3sq d2 s1 s2 s3 = false) :
    (splitTriple P ops d1sq d2sq d3sq d2 s1 s2 s3).split3 =
      split3Amended P s1 s3 d2 d2sq d3sq := by
  rw [splitTriple_split3]
  unfold split3Amended
  apply decide_eq_decide.mpr
  constructor
  · rintro ⟨hpos, hdisj⟩
    refine ⟨hpos, ?_⟩
    rcases hdisj with h | ⟨_, h, h2⟩ | h | ⟨h1, h2⟩
    · exact Or.inl (by linarith [mul_comm d2 P.b])
    · exact Or.inr (Or.inl ⟨by linarith [mul_comm d2 P.b], h2⟩)
    · exact Or.inr (Or.inr (Or.inl h))
    · exact Or.inr (Or.inr (Or.inr ⟨h1, by linarith [mul_comm d2 P.bv]⟩))
  · rintro ⟨hpos, hdisj⟩
    refine ⟨hpos, ?_⟩
    rcases hdisj with h | ⟨h, h2⟩ | h | ⟨h1, h2⟩
    · exact Or.inl (by linarith [mul_comm P.b d2])
    · exact Or.inr (Or.inl ⟨by linarith, by linarith [mul_comm P.b d2], h2⟩)
    · exact Or.inr (Or.inr (Or.inl h))
    · exact Or.inr (Or.inr (Or.inr ⟨h1, by linarith [mul_comm P.bv d2]⟩))

/-! ### Claim C5: sorting and permutation routing -/

/-- The identity arrangement 123. -/
def arr123 : Fin 3 → Fin 3 := ![0, 1, 2]

/-- The arrangement 132 (position i of the callee holds original cell
arr132 i, zero-indexed). -/
def arr132 : Fin 3 → Fin 3 := ![0, 2, 1]

/-- The arrangement 213. -/
def arr213 : Fin 3 → Fin 3 := ![1, 0, 2]

/-- The arrangement 231. -/
def arr231 : Fin 3 → Fin 3 := ![1, 2, 0]

/-- The arrangement 312. -/
def arr312 : Fin 3 → Fin 3 := ![2, 0, 1]

/-- The arrangement 321. -/
def arr321 : Fin 3 → Fin 3 := ![2, 1, 0]

/-- The six sibling accumulators of a process111 call, indexed by the
arrangement of the original cells they are named after. -/
def accOf (i123 i132 i213 i231 i312 i321 : ℕ) (m : Fin 3 → Fin 3) : ℕ :=
  if m = arr123 then i123
  else if m = arr132 then i132
  else if m = arr213 then i213
  else if m = arr231 then i231
  else if m = arr312 then i312
  else i321

/-- The arrangement process111 selects by comparing the three squared
sides, mirroring its branch structure. -/
def sortPerm (d1sq d2sq d3sq : ℚ) : Fin 3 → Fin 3 :=
  if d1sq > d2sq then
    if d2sq > d3sq then arr123
    else if d1sq > d3sq then arr132
    else arr312
  else
    if d1sq > d3sq then arr213
    else if d2sq > d3sq then arr231
    else arr321

/-- C5: every call of process111 with all three cell weights nonzero makes
exactly one call of process111Sorted: the cells and the squared sides are
both permuted by the arrangement m selected from the distance comparisons
(so each side still joins the same pair of cells), the permuted sides are
sorted (d1sq >= d2sq >= d3sq at the callee), the callee runs on the
sibling accumulator named by m, and the callee's five sibling slots are
the caller's six slots re-indexed by composition with m. -/
theorem c5_sorting_and_routing (P : Params) (ops : NumOps) (fuel : ℕ)
    (self a132 a213 a231 a312 a321 : ℕ) (c1 c2 c3 : Cell)
    (d1sq0 d2sq0 d3sq0 d1sq d2sq d3sq : ℚ) (m : Fin 3 → Fin 3)
    (h1 : c1.getW ≠ 0) (h2 : c2.getW ≠ 0) (h3 : c3.getW ≠ 0)
    (hd1 : d1sq = (if d1sq0 = 0 then ops.distsq c2.pos c3.pos 0 0 else d1sq0))
    (hd2 : d2sq = (if d2sq0 = 0 then ops.distsq c1.pos c3.pos 0 0 else d2sq0))
    (hd3 : d3sq = (if d3sq0 = 0 then ops.distsq c1.pos c2.pos 0 0 else d3sq0))
    (hm : m = sortPerm d1sq d2sq d3sq) :
    process111 P ops (fuel+1) self a132 a213 a231 a312 a321 c1 c2 c3 d1sq0 d2sq0 d3sq0 =
      process111Sorted P ops fuel
        (accOf self a132 a213 a231 a312 a321 m)
        (accOf self a132 a213 a231 a312 a321 (m ∘ arr132))
        (accOf self a132 a213 a231 a312 a321 (m ∘ arr213))
        (accOf self a132 a213 a231 a312 a321 (m ∘ arr231))
        (accOf self a132 a213 a231 a312 a321 (m ∘ arr312))
        (accOf self a132 a213 a231 a312 a321 (m ∘ arr321))
        (![c1, c2, c3] (m 0)) (![c1, c2, c3] (m 1)) (![c1, c2, c3] (m 2))
        (![d1sq, d2sq, d3sq] (m 0)) (![d1sq, d2sq, d3sq] (m 1))
        (![d1sq, d2sq, d3sq] (m 2)) ∧
    ![d1sq, d2sq, d3sq] (m 1) ≤ ![d1sq, d2sq, d3sq] (m 0) ∧
    ![d1sq, d2sq, d3sq] (m 2) ≤ ![d1sq, d2sq, d3sq] (m 1) := by
  have key : process111 P ops (fuel+1) self a132 a213 a231 a312 a321 c1 c2 c3
      d1sq0 d2sq0 d3sq0 =
      (match plan P ops (.p111 self a132 a213 a231 a312 a321 c1 c2 c3 d1sq0 d2sq0 d3sq0) with
       | .halt r => r
       | .calls l => seqList (l.map (exec P ops fuel))) := by
    simp only [process111, exec]
  have hplan : plan P ops (.p111 self a132 a213 a231 a312 a321 c1 c2 c3 d1sq0 d2sq0 d3sq0) =
      (if d1sq > d2sq then
        if d2sq > d3sq then
          Plan.calls [.pS self a132 a213 a231 a312 a321 c1 c2 c3 d1sq d2sq d3sq]
        else if d1sq > d3sq then
          Plan.calls [.pS a132 self a312 a321 a213 a231 c1 c3 c2 d1sq d3sq d2sq]
        else
          Plan.calls [.pS a312 a321 a132 self a231 a213 c3 c1 c2 d3sq d1sq d2sq]
      else
        if d1sq > d3sq then
          Plan.calls [.pS a213 a231 self a132 a321 a312 c2 c1 c3 d2sq d1sq d3sq]
        else if d2sq > d3sq then
          Plan.calls [.pS a231 a213 a321 a312 self a132 c2 c3 c1 d2sq d3sq d1sq]
        else
          Plan.calls [.pS a321 a312 a231 a213 a132 self c3 c2 c1 d3sq d2sq d1sq]) := by
    simp only [plan]
    rw [if_neg h1, if_neg h2, if_neg h3, ← hd1, ← hd2, ← hd3]
  rw [key, hplan]
  by_cases hA : d1sq > d2sq
  · by_cases hB : d2sq > d3sq
    · have hm2 : m = arr123 := by rw [hm]; unfold sortPerm; rw [if_pos hA, if_pos hB]
      subst hm2
      rw [if_pos hA, if_pos hB]
      have e1 : arr123 ∘ arr132 = arr132 := by decide
      have e2 : arr123 ∘ arr213 = arr213 := by decide
      have e3 : arr123 ∘ arr231 = arr231 := by decide
      have e4 : arr123 ∘ arr312 = arr312 := by decide
      have e5 : arr123 ∘ arr321 = arr321 := by decide
      rw [e1, e2, e3, e4, e5]
      exact ⟨by simp only [List.map, seqList, Res.seq_empty_ok, process111Sorted]; simp +decide [accOf, arr123], by simp [arr123]; linarith, by simp [arr123]; linarith⟩
    · by_cases hC : d1sq > d3sq
      · have hm2 : m = arr132 := by
          rw [hm]; unfold sortPerm; rw [if_pos hA, if_neg hB, if_pos hC]
        subst hm2
        rw [if_pos hA, if_neg hB, if_pos hC]
        have e1 : arr132 ∘ arr132 = arr123 := by decide
        have e2 : arr132 ∘ arr213 = arr312 := by decide
        have e3 : arr132 ∘ arr231 = arr321 := by decide
        have e4 : arr132 ∘ arr312 = arr213 := by decide
        have e5 : arr132 ∘ arr321 = arr231 := by decide
        rw [e1, e2, e3, e4, e5]
        exact ⟨by simp only [List.map, seqList, Res.seq_empty_ok, process111Sorted]; simp +decide [accOf, arr132], by simp [arr132]; linarith, by simp [arr132]; linarith⟩
      · have hm2 : m = arr312 := by
          rw [hm]; unfold sortPerm; rw [if_pos hA, if_neg hB, if_neg hC]
        subst hm2
        rw [if_pos hA, if_neg hB, if_neg hC]
        have e1 : arr312 ∘ arr132 = arr321 := by decide
        have e2 : arr312 ∘ arr213 = arr132 := by decide
        have e3 : arr312 ∘ arr231 = arr123 := by decide
        have e4 : arr312 ∘ arr312 = arr231 := by decide
        have e5 : arr312 ∘ arr321 = arr213 := by decide
        rw [e1, e2, e3, e4, e5]
        exact ⟨by simp only [List.map, seqList, Res.seq_empty_ok, process111Sorted]; simp +decide [accOf, arr312], by simp [arr312]; linarith, by simp [arr312]; linarith⟩
  · by_cases hC : d1sq > d3sq
    · have hm2 : m = arr213 := by rw [hm]; unfold sortPerm; rw [if_neg hA, if_pos hC]
      subst hm2
      rw [if_neg hA, if_pos hC]
      have e1 : arr213 ∘ arr132 = arr231 := by decide
      have e2 : arr213 ∘ arr213 = arr123 := by decide
      have e3 : arr213 ∘ arr231 = arr132 := by decide
      have e4 : arr213 ∘ arr312 = arr321 := by decide
      have e5 : arr213 ∘ arr321 = arr312 := by decide
      rw [e1, e2, e3, e4, e5]
      exact ⟨by simp only [List.map, seqList, Res.seq_empty_ok, process111Sorted]; simp +decide [accOf, arr213], by simp [arr213]; linarith, by simp [arr213]; linarith⟩
    · by_cases hB : d2sq > d3sq
      · have hm2 : m = arr231 := by
          rw [hm]; unfold sortPerm; rw [if_neg hA, if_neg hC, if_pos hB]
        subst hm2
        rw [if_neg hA, if_neg hC, if_pos hB]
        have e1 : arr231 ∘ arr132 = arr213 := by decide
        have e2 : arr231 ∘ arr213 = arr321 := by decide
        have e3 : arr231 ∘ arr231 = arr312 := by decide
        have e4 : arr231 ∘ arr312 = arr123 := by decide
        have e5 : arr231 ∘ arr321 = arr132 := by decide
        rw [e1, e2, e3, e4, e5]
        exact ⟨by simp only [List.map, seqList, Res.seq_empty_ok, process111Sorted]; simp +decide [accOf, arr231], by simp [arr231]; linarith, by simp [arr231]; linarith⟩
      · have hm2 : m = arr321 := by
          rw [hm]; unfold sortPerm; rw [if_neg hA, if_neg hC, if_neg hB]
        subst hm2
        rw [if_neg hA, if_neg hC, if_neg hB]
        have e1 : arr321 ∘ arr132 = arr312 := by decide
        have e2 : arr321 ∘ arr213 = arr231 := by decide
        have e3 : arr321 ∘ arr231 = arr213 := by decide
        have e4 : arr321 ∘ arr312 = arr132 := by decide
        have e5 : arr321 ∘ arr321 = arr123 := by decide
        rw [e1, e2, e3, e4, e5]
        exact ⟨by simp only [List.map, seqList, Res.seq_empty_ok, process111Sorted]; simp +decide [accOf, arr321], by simp [arr321]; linarith, by simp [arr321]; linarith⟩

/-- A concrete singleton cell at the origin. -/
def wc1 : Cell := .leaf (0, 0) 0 1 1

/-- A concrete singleton cell at (3, 0). -/
def wc2 : Cell := .leaf (3, 0) 0 1 1

/-- A concrete singleton cell at (0, 4). -/
def wc3 : Cell := .leaf (0, 4) 0 1 1

theorem c5_sorting_and_routing_witness :
    wc1.getW ≠ 0 ∧ wc2.getW ≠ 0 ∧ wc3.getW ≠ 0 ∧
    ((16:ℚ) = if (16:ℚ) = 0 then testOps.distsq wc2.pos wc3.pos 0 0 else 16) ∧
    ![(16:ℚ), 9, 25] (sortPerm 16 9 25 1) ≤ ![(16:ℚ), 9, 25] (sortPerm 16 9 25 0) ∧
    ![(16:ℚ), 9, 25] (sortPerm 16 9 25 2) ≤ ![(16:ℚ), 9, 25] (sortPerm 16 9 25 1) := by
  have h := c5_sorting_and_routing pC3 testOps 3 0 1 2 3 4 5 wc1 wc2 wc3
    16 9 25 16 9 25 (sortPerm 16 9 25)
    (by decide) (by decide) (by decide)
    (by norm_num) (by norm_num) (by norm_num) rfl
  exact ⟨by decide, by decide, by decide, by norm_num, h.2.1, h.2.2⟩

/-! ### Claim C10: child-access safety in process3 -/

/-- A call that is not a process3 call. -/
def notP3 : Call → Prop
  | .p3 _ _ => False
  | _ => True

theorem Res.seq_ne_status {r1 r2 : Res} (st : Status) (h1 : r1.status ≠ st)
    (h2 : r2.status ≠ st) : (r1.seq r2).status ≠ st := by
  unfold Res.seq
  rcases hs : r1.status with _ | s | _
  · exact h2
  · simpa [hs] using h1
  · simpa [hs] using h1

theorem seqList_ne_status (st : Status) (hst : st ≠ .ok) :
    ∀ rs : List Res, (∀ r ∈ rs, r.status ≠ st) → (seqList rs).status ≠ st := by
  intro rs
  induction rs with
  | nil => intro _; simpa [seqList] using fun h => hst h.symm
  | cons r rest ih =>
    intro h
    exact Res.seq_ne_status st (h r (by simp))
      (ih fun r2 h2 => h r2 (by simp [h2]))

set_option maxHeartbeats 2000000 in
/-- Only process3's plan can halt with the process3 child-access failure,
and plans of the other three procedures spawn no process3 calls. -/
theorem plan_sub_not_p3 (P : Params) (ops : NumOps) (cl : Call) (h : notP3 cl) :
    (∀ r, plan P ops cl = .halt r → r.status ≠ .bad .s3) ∧
    (∀ l, plan P ops cl = .calls l → ∀ cx ∈ l, notP3 cx) := by
  match cl with
  | .p3 self c1 => exact absurd h (by simp [notP3])
  | .p12 self b212 b221 c1 c2 =>
    constructor <;> intro x hx <;> revert hx <;> simp only [plan] <;>
      repeat' split
    all_goals intro hx
    all_goals cases hx
    all_goals simp_all [notP3]
    all_goals intro cx hcx
    all_goals fin_cases hcx <;> trivial
  | .p111 i1 i2 i3 i4 i5 i6 c1 c2 c3 e1 e2 e3 =>
    constructor <;> intro x hx <;> revert hx <;> simp only [plan] <;>
      repeat' split
    all_goals intro hx
    all_goals cases hx
    all_goals simp_all [notP3]
    all_goals intro cx hcx
    all_goals fin_cases hcx <;> trivial
  | .pS i1 i2 i3 i4 i5 i6 c1 c2 c3 e1 e2 e3 =>
    constructor <;> intro x hx <;> revert hx <;> simp only [plan] <;>
      repeat' split
    all_goals intro hx
    all_goals cases hx
    all_goals simp_all [notP3]
    all_goals intro cx hcx
    all_goals fin_cases hcx <;> trivial

/-- process12, process111 and process111Sorted never fail a process3
child-access assertion (they never call process3). -/
theorem exec_not_p3_ne_bad3 (P : Params) (ops : NumOps) :
    ∀ (fuel : ℕ) (cl : Call), notP3 cl → (exec P ops fuel cl).status ≠ .bad .s3 := by
  intro fuel
  induction fuel with
  | zero => intro cl _; simp [exec]
  | succ n ih =>
    intro cl h
    simp only [exec]
    rcases hp : plan P ops cl with r | l
    · exact (plan_sub_not_p3 P ops cl h).1 r hp
    · refine seqList_ne_status _ (by simp) _ ?_
      intro r2 h2
      rw [List.mem_map] at h2
      obtain ⟨cx, hcx, rfl⟩ := h2
      exact ih cx ((plan_sub_not_p3 P ops cl h).2 l hp cx hcx)

/-- Parameters with minsep = 0 for the second half of c10. -/
def pMin0 : Params := mkParams testOps 0 1000 1 1 (1/10) 0 1 2 (1/2) (1/10) 0 1 5 (1/5) (1/10)

/-- C10: if every leaf has size 0 and halfminsep = minsep/2 > 0, the
child-access assertions of process3 never fail: a cell that passes the
early returns satisfies size >= halfminsep > 0, so it is not a leaf and
has both children.  With minsep = 0 the guarantee is lost: a leaf of
weight 1 and size 0 passes both early returns and fails the assertion. -/
theorem c10_process3_child_safety :
    (∀ (P : Params) (ops : NumOps) (fuel self : ℕ) (c1 : Cell),
      leavesZero c1 = true → P.halfminsep = (1/2 : ℚ) * P.minsep → 0 < P.minsep →
      (process3 P ops fuel self c1).status ≠ .bad .s3) ∧
    (process3 pMin0 testOps 1 0 (.leaf (0, 0) 0 1 1)).status = .bad .s3 := by
  constructor
  · intro P ops fuel
    induction fuel with
    | zero => intro self c1 _ _ _; simp [process3, exec]
    | succ n ih =>
      intro self c1 hlz hP hpos
      simp only [process3, exec]
      rcases hp : plan P ops (.p3 self c1) with r | l
      · revert hp
        simp only [plan]
        split
        · intro hp; cases hp; simp
        · split
          · intro hp; cases hp; simp
          · next hw hsz =>
            match c1, hlz with
            | .leaf p ps w k, hlz =>
              intro hp
              exfalso
              have hs0 : ps = 0 := by simpa [leavesZero] using hlz
              have : Cell.size (.leaf p ps w k) < P.halfminsep := by
                rw [hs0, hP]
                simp only [Cell.size]
                linarith
              exact hsz this
            | .node p ps w k l r, hlz => intro hp; cases hp
      · have hmem : ∀ cx ∈ l, (exec P ops n cx).status ≠ .bad .s3 := by
          revert hp
          simp only [plan]
          split
          · intro hp; cases hp
          · split
            · intro hp; cases hp
            · next hw hsz =>
              match c1, hlz with
              | .leaf p ps w k, hlz => intro hp; cases hp
              | .node p ps w k cl2 cr2, hlz =>
                intro hp
                cases hp
                have hl : leavesZero cl2 = true := by
                  have h2 := hlz
                  simp only [leavesZero, Bool.and_eq_true] at h2
                  exact h2.1
                have hr : leavesZero cr2 = true := by
                  have h2 := hlz
                  simp only [leavesZero, Bool.and_eq_true] at h2
                  exact h2.2
                intro cx hcx
                fin_cases hcx
                · simpa [process3] using ih self cl2 hl hP hpos
                · simpa [process3] using ih self cr2 hr hP hpos
                · exact exec_not_p3_ne_bad3 P ops n _ trivial
                · exact exec_not_p3_ne_bad3 P ops n _ trivial
        refine seqList_ne_status _ (by simp) _ ?_
        intro r2 h2
        rw [List.mem_map] at h2
        obtain ⟨cx, hcx, rfl⟩ := h2
        exact hmem cx hcx
  · with_unfolding_all rfl

/-! ### Where commits come from -/

theorem seqList_mem_events {e : Event} :
    ∀ rs : List Res, e ∈ (seqList rs).events → ∃ r ∈ rs, e ∈ r.events := by
  intro rs
  induction rs with
  | nil => intro h; simp [seqList] at h
  | cons r rest ih =>
    intro h
    rcases Res.seq_mem _ _ h with h1 | h2
    · exact ⟨r, by simp, h1⟩
    · obtain ⟨r2, hr2, he2⟩ := ih h2
      exact ⟨r2, by simp [hr2], he2⟩

set_option maxHeartbeats 2000000 in
/-- Every halting plan either commits nothing or commits exactly the one
event produced by the commit tail of process111Sorted, on the self slot
of the sorted call. -/
theorem plan_halt_events (P : Params) (ops : NumOps) (cl : Call) (r : Res)
    (h : plan P ops cl = .halt r) :
    r.events = [] ∨
    ∃ i1 i2 i3 i4 i5 i6 c1 c2 c3 e1 e2 e3 ev,
      cl = .pS i1 i2 i3 i4 i5 i6 c1 c2 c3 e1 e2 e3 ∧
      commitStep P ops i1 c1 c2 c3 (ops.sqrt e1) (ops.sqrt e2) (ops.sqrt e3)
        (ops.sqrt e3 / ops.sqrt e2) ((ops.sqrt e1 - ops.sqrt e2) / ops.sqrt e3) = some ev ∧
      r.events = [ev] := by
  match cl with
  | .p3 self c1 =>
    revert h
    simp only [plan]
    repeat' split
    all_goals intro h
    all_goals cases h
    all_goals simp
  | .p12 self b212 b221 c1 c2 =>
    revert h
    simp only [plan]
    repeat' split
    all_goals intro h
    all_goals cases h
    all_goals simp
  | .p111 i1 i2 i3 i4 i5 i6 c1 c2 c3 e1 e2 e3 =>
    revert h
    simp only [plan]
    repeat' split
    all_goals intro h
    all_goals cases h
    all_goals simp
  | .pS i1 i2 i3 i4 i5 i6 c1 c2 c3 e1 e2 e3 =>
    revert h
    simp only [plan]
    repeat' split
    all_goals intro h
    all_goals cases h
    all_goals try (left; rfl)
    all_goals right
    all_goals rename_i ev heq
    all_goals exact ⟨i1, i2, i3, i4, i5, i6, c1, c2, c3, e1, e2, e3, ev, rfl, heq, rfl⟩

set_option maxHeartbeats 2000000 in
/-- Every sub-call of a plan addresses only accumulator slots that the
planned call already addresses. -/
theorem plan_calls_ids (P : Params) (ops : NumOps) (cl : Call) (l : List Call)
    (h : plan P ops cl = .calls l) :
    ∀ cx ∈ l, ∀ i ∈ callIds cx, i ∈ callIds cl := by
  match cl with
  | .p3 self c1 =>
    revert h
    simp only [plan]
    repeat' split
    all_goals intro h
    all_goals cases h
    all_goals intro cx hcx
    all_goals fin_cases hcx
    all_goals intro i hi
    all_goals fin_cases hi
    all_goals simp [callIds]
  | .p12 self b212 b221 c1 c2 =>
    revert h
    simp only [plan]
    repeat' split
    all_goals intro h
    all_goals cases h
    all_goals intro cx hcx
    all_goals fin_cases hcx
    all_goals intro i hi
    all_goals fin_cases hi
    all_goals simp [callIds]
  | .p111 i1 i2 i3 i4 i5 i6 c1 c2 c3 e1 e2 e3 =>
    revert h
    simp only [plan]
    repeat' split
    all_goals intro h
    all_goals cases h
    all_goals intro cx hcx
    all_goals fin_cases hcx
    all_goals intro i hi
    all_goals fin_cases hi
    all_goals simp [callIds]
  | .pS i1 i2 i3 i4 i5 i6 c1 c2 c3 e1 e2 e3 =>
    revert h
    simp only [plan]
    repeat' split
    all_goals intro h
    all_goals cases h
    all_goals intro cx hcx
    all_goals fin_cases hcx
    all_goals intro i hi
    all_goals fin_cases hi
    all_goals simp [callIds]

/-- Master lemma: any property guaranteed by the commit tail (for commits
whose slot lies in S) holds of every event of every run whose call only
addresses slots in S. -/
theorem exec_events_spec (P : Params) (ops : NumOps) (Q : Event → Prop) (S : Set ℕ)
    (hQ : ∀ i1 c1 c2 c3 d1 d2 d3 u v e, i1 ∈ S →
      commitStep P ops i1 c1 c2 c3 d1 d2 d3 u v = some e → Q e) :
    ∀ (fuel : ℕ) (cl : Call), (∀ i ∈ callIds cl, i ∈ S) →
      ∀ e ∈ (exec P ops fuel cl).events, Q e := by
  intro fuel
  induction fuel with
  | zero => intro cl _ e he; simp [exec] at he
  | succ n ih =>
    intro cl hS e he
    rw [exec] at he
    rcases hp : plan P ops cl with r | l <;> rw [hp] at he
    · rcases plan_halt_events P ops cl r hp with h0 | h1
      · rw [h0] at he
        cases he
      · obtain ⟨i1, i2, i3, i4, i5, i6, c1, c2, c3, e1, e2, e3, ev, hcl, hcs, hev⟩ := h1
        rw [hev] at he
        have : e = ev := by simpa using he
        subst this
        exact hQ i1 c1 c2 c3 _ _ _ _ _ e (hS i1 (by simp [hcl, callIds])) hcs
    · obtain ⟨r2, hr2, he2⟩ := seqList_mem_events _ he
      rw [List.mem_map] at hr2
      obtain ⟨cx, hcx, rfl⟩ := hr2
      exact ih cx (fun i hi => hS i (plan_calls_ids P ops cl l hp cx hcx i hi)) e he2

/-- The driver-level version of the master lemma. -/
theorem runCalls_events_spec (P : Params) (ops : NumOps) (Q : Event → Prop) (S : Set ℕ)
    (hQ : ∀ i1 c1 c2 c3 d1 d2 d3 u v e, i1 ∈ S →
      commitStep P ops i1 c1 c2 c3 d1 d2 d3 u v = some e → Q e)
    (fuel : ℕ) (calls : List Call) (hS : ∀ cl ∈ calls, ∀ i ∈ callIds cl, i ∈ S) :
    ∀ e ∈ (runCalls P ops fuel calls).events, Q e := by
  intro e he
  obtain ⟨r2, hr2, he2⟩ := seqList_mem_events _ he
  rw [List.mem_map] at hr2
  obtain ⟨cx, hcx, rfl⟩ := hr2
  exact exec_events_spec P ops Q S hQ fuel cx (hS cx hcx) e he2

/-- Inversion of the commit tail: the committed event's fields, the range
guarantees, the CCW sign step, the flat index formula and the index
guard. -/
theorem commitStep_some (P : Params) (ops : NumOps) (self : ℕ) (c1 c2 c3 : Cell)
    (d1 d2 d3 u v : ℚ) (e : Event)
    (h : commitStep P ops self c1 c2 c3 d1 d2 d3 u v = some e) :
    e.slot = self ∧ e.c1 = c1 ∧ e.c2 = c2 ∧ e.c3 = c3 ∧
    e.d1 = d1 ∧ e.d2 = d2 ∧ e.d3 = d3 ∧ e.u = u ∧ e.vpre = v ∧
    P.minsep ≤ d2 ∧ d2 < P.maxsep ∧ P.minu ≤ u ∧ u < P.maxu ∧
    P.minv ≤ v ∧ v < P.maxv ∧
    e.ccw = ops.ccw c1.pos c2.pos c3.pos ∧
    e.v = (if e.ccw then v else -v) ∧
    e.kv = (if e.ccw then e.kvpre + (P.nvbins : ℤ) else (P.nvbins : ℤ) - e.kvpre - 1) ∧
    e.index = e.kr * (P.nuv : ℤ) + e.ku * (P.nvbins2 : ℤ) + e.kv ∧
    0 ≤ e.index ∧ e.index < (P.ntot : ℤ) := by
  simp only [commitStep] at h
  by_cases hA : (d2 < P.minsep ∨ d2 ≥ P.maxsep)
  · rw [if_pos hA] at h; cases h
  rw [if_neg hA] at h
  by_cases hB : (u < P.minu ∨ u ≥ P.maxu)
  · rw [if_pos hB] at h; cases h
  rw [if_neg hB] at h
  by_cases hC : (v < P.minv ∨ v ≥ P.maxv)
  · rw [if_pos hC] at h; cases h
  rw [if_neg hC] at h
  push_neg at hA hB hC
  split_ifs at h with hD
  push_neg at hD
  cases h
  exact ⟨rfl, rfl, rfl, rfl, rfl, rfl, rfl, rfl, rfl,
    hA.1, hA.2, hB.1, hB.2, hC.1, hC.2, rfl, rfl, rfl, rfl, hD.1, hD.2⟩

/-- Any property guaranteed by the commit tail holds of every event of any
of the three entry points. -/
theorem drivers_events_spec (P : Params) (ops : NumOps) (Q : Event → Prop)
    (hQ : ∀ i1 c1 c2 c3 d1 d2 d3 u v e,
      commitStep P ops i1 c1 c2 c3 d1 d2 d3 u v = some e → Q e)
    (fuel : ℕ) :
    (∀ cells, ∀ e ∈ (processAuto P ops fuel cells).events, Q e) ∧
    (∀ f1 f2, ∀ e ∈ (processCross12 P ops fuel f1 f2).events, Q e) ∧
    (∀ f1 f2 f3, ∀ e ∈ (processCross111 P ops fuel f1 f2 f3).events, Q e) := by
  have hQ2 : ∀ i1 c1 c2 c3 d1 d2 d3 u v e, i1 ∈ (Set.univ : Set ℕ) →
      commitStep P ops i1 c1 c2 c3 d1 d2 d3 u v = some e → Q e :=
    fun i1 c1 c2 c3 d1 d2 d3 u v e _ h => hQ i1 c1 c2 c3 d1 d2 d3 u v e h
  refine ⟨fun cells => ?_, fun f1 f2 => ?_, fun f1 f2 f3 => ?_⟩ <;>
    exact runCalls_events_spec P ops Q Set.univ hQ2 fuel _
      (fun _ _ _ _ => Set.mem_univ _)

/-! ### Claim C2: in-range commits only -/

/-- The binning window of a committed triangle. -/
def commitInRange (P : Params) (e : Event) : Prop :=
  P.minsep ≤ e.d2 ∧ e.d2 < P.maxsep ∧ P.minu ≤ e.u ∧ e.u < P.maxu ∧
  P.minv ≤ |e.v| ∧ |e.v| < P.maxv

theorem commitStep_in_range (P : Params) (ops : NumOps) (hminv : 0 ≤ P.minv)
    (i1 : ℕ) (c1 c2 c3 : Cell) (d1 d2 d3 u v : ℚ) (e : Event)
    (h : commitStep P ops i1 c1 c2 c3 d1 d2 d3 u v = some e) :
    commitInRange P e := by
  obtain ⟨_, _, _, _, _, hd2, _, hu, _, r1, r2, r3, r4, r5, r6, _, hv, _, _, _, _⟩ :=
    commitStep_some P ops i1 c1 c2 c3 d1 d2 d3 u v e h
  have h0 : 0 ≤ v := le_trans hminv r5
  have hva : |e.v| = v := by
    rw [hv]
    cases e.ccw <;> simp [abs_of_nonneg h0]
  refine ⟨?_, ?_, ?_, ?_, ?_, ?_⟩
  · rw [hd2]; exact r1
  · rw [hd2]; exact r2
  · rw [hu]; exact r3
  · rw [hu]; exact r4
  · rw [hva]; exact r5
  · rw [hva]; exact r6

/-- C2: in every run of the auto, cross-12 and cross-111 entry points
(with the spec's constraint 0 <= minv on the v window), every reachable
call of directProcess111 / finishProcess, on whichever sibling
accumulator, has minsep <= d2 < maxsep, minu <= u < maxu and
minv <= abs v < maxv; since the accumulators are only updated through
those commits, no bin is ever updated by a triangle outside the ranges. -/
theorem c2_commits_in_range (P : Params) (ops : NumOps) (hminv : 0 ≤ P.minv)
    (fuel : ℕ) :
    (∀ cells, ∀ e ∈ (processAuto P ops fuel cells).events, commitInRange P e) ∧
    (∀ f1 f2, ∀ e ∈ (processCross12 P ops fuel f1 f2).events, commitInRange P e) ∧
    (∀ f1 f2 f3, ∀ e ∈ (processCross111 P ops fuel f1 f2 f3).events,
      commitInRange P e) :=
  drivers_events_spec P ops (commitInRange P)
    (fun i1 c1 c2 c3 d1 d2 d3 u v e h =>
      commitStep_in_range P ops hminv i1 c1 c2 c3 d1 d2 d3 u v e h) fuel

/-- Parameters for the C4 counterexample runs (minu = 0, maxu = 2 so the
degenerate-isoceles commit is kept). -/
def pC4 : Params := mkParams testOps 1 100 1 1 (1/10) 0 2 2 1 (1/10) 0 1 1 1 (1/10)

theorem c2_commits_in_range_witness :
    0 ≤ pC4.minv ∧
    ∀ e ∈ (processAuto pC4 testOps 2 [wc1, wc2, wc3]).events, commitInRange pC4 e :=
  ⟨by decide, (c2_commits_in_range pC4 testOps (by decide) 2).1 [wc1, wc2, wc3]⟩

/-! ### Claim C7: flat index and silent drop -/

/-- The flat-index contract of a commit: the committed index is
kr*(nubins*2*nvbins) + ku*(2*nvbins) + kv, and it lies inside [0, ntot);
an index outside that window is never committed (the corresponding
contribution is silently dropped before the kernel commit). -/
def indexContract (P : Params) (e : Event) : Prop :=
  e.index = e.kr * (P.nuv : ℤ) + e.ku * (P.nvbins2 : ℤ) + e.kv ∧
  0 ≤ e.index ∧ e.index < (P.ntot : ℤ)

/-- C7: every commit of any of the three entry points uses the flat index
kr*nuv + ku*nvbins2 + kv, and only indices inside [0, ntot) are ever
committed; a computed index outside that range makes the commit tail
return none, so no accumulator element is modified for that
contribution. -/
theorem c7_flat_index_and_drop (P : Params) (ops : NumOps) (fuel : ℕ) :
    (∀ cells, ∀ e ∈ (processAuto P ops fuel cells).events, indexContract P e) ∧
    (∀ f1 f2, ∀ e ∈ (processCross12 P ops fuel f1 f2).events, indexContract P e) ∧
    (∀ f1 f2 f3, ∀ e ∈ (processCross111 P ops fuel f1 f2 f3).events,
      indexContract P e) := by
  refine drivers_events_spec P ops (indexContract P) ?_ fuel
  intro i1 c1 c2 c3 d1 d2 d3 u v e h
  obtain ⟨_, _, _, _, _, _, _, _, _, _, _, _, _, _, _, _, _, _, hidx, h0, h1⟩ :=
    commitStep_some P ops i1 c1 c2 c3 d1 d2 d3 u v e h
  exact ⟨hidx, h0, h1⟩

/-! ### Claim C4: sign of the accumulated v -/

/-- The sign contract of a committed triangle: the recorded orientation is
the metric's CCW of the three commit cells; the accumulated v is negative
exactly when the triangle is not CCW and the binned v was nonzero; when
CCW fails, v is replaced by -v and kv by nvbins - kv - 1, and otherwise
kv is replaced by kv + nvbins. -/
def signContract (P : Params) (ops : NumOps) (e : Event) : Prop :=
  e.ccw = ops.ccw e.c1.pos e.c2.pos e.c3.pos ∧
  (e.v < 0 ↔ (e.ccw = false ∧ e.vpre ≠ 0)) ∧
  (e.ccw = false → e.v = -e.vpre ∧ e.kv = (P.nvbins : ℤ) - e.kvpre - 1) ∧
  (e.ccw = true → e.v = e.vpre ∧ e.kv = e.kvpre + (P.nvbins : ℤ))

theorem commitStep_sign (P : Params) (ops : NumOps) (hminv : 0 ≤ P.minv)
    (i1 : ℕ) (c1 c2 c3 : Cell) (d1 d2 d3 u v : ℚ) (e : Event)
    (h : commitStep P ops i1 c1 c2 c3 d1 d2 d3 u v = some e) :
    signContract P ops e := by
  obtain ⟨_, hc1, hc2, hc3, _, _, _, _, hvpre, _, _, _, _, r5, _, hcc, hv, hkv, _, _, _⟩ :=
    commitStep_some P ops i1 c1 c2 c3 d1 d2 d3 u v e h
  have h0 : 0 ≤ v := le_trans hminv r5
  refine ⟨by rw [hcc, hc1, hc2, hc3], ?_, ?_, ?_⟩
  · rw [hv, hvpre]
    cases hb : e.ccw with
    | false =>
      rw [if_neg Bool.false_ne_true]
      constructor
      · intro hlt
        refine ⟨rfl, fun hv0 => ?_⟩
        rw [hv0] at hlt
        norm_num at hlt
      · rintro ⟨-, hne⟩
        have h1 : 0 < v := lt_of_le_of_ne h0 (Ne.symm hne)
        linarith
    | true =>
      rw [if_pos rfl]
      constructor
      · intro hlt
        exact absurd hlt (not_lt.mpr h0)
      · rintro ⟨hfalse, -⟩
        cases hfalse
  · intro hb
    rw [hv, hkv, hb, hvpre]
    simp
  · intro hb
    rw [hv, hkv, hb, hvpre]
    simp

/-- C4 (amended): for every committed triangle of any entry point (with
the spec's constraint 0 <= minv), the accumulated v is negative iff the
triangle fails the metric's CCW test and the binned v was nonzero (when
the binned v is 0, the flip produces -0 = 0, which is not negative); the
kv re-indexing is exactly as the claim states it. -/
theorem c4_sign_of_v_amended (P : Params) (ops : NumOps) (hminv : 0 ≤ P.minv)
    (fuel : ℕ) :
    (∀ cells, ∀ e ∈ (processAuto P ops fuel cells).events, signContract P ops e) ∧
    (∀ f1 f2, ∀ e ∈ (processCross12 P ops fuel f1 f2).events, signContract P ops e) ∧
    (∀ f1 f2 f3, ∀ e ∈ (processCross111 P ops fuel f1 f2 f3).events,
      signContract P ops e) :=
  drivers_events_spec P ops (signContract P ops)
    (fun i1 c1 c2 c3 d1 d2 d3 u v e h =>
      commitStep_sign P ops hminv i1 c1 c2 c3 d1 d2 d3 u v e h) fuel

theorem c4_sign_of_v_amended_witness :
    0 ≤ pC4.minv ∧
    ∀ e ∈ (processAuto pC4 testOps 2 [wc1, wc2, wc3]).events, signContract pC4 testOps e :=
  ⟨by decide, (c4_sign_of_v_amended pC4 testOps (by decide) 2).1 [wc1, wc2, wc3]⟩

/-- The C4 counterexample run: a single process111 call on the vertices
(0,0), (2,0), (1,2) of an isoceles triangle whose two longest sides are
equal, so the sorted triple has d1sq = d2sq and the binned v is exactly 0,
while the sorted cell order (c2, c1, c3) is clockwise. -/
def ex4run : Res :=
  process111 pC4 testOps 2 0 1 2 3 4 5
    (.leaf (0, 0) 0 1 1) (.leaf (2, 0) 0 1 1) (.leaf (1, 2) 0 1 1) 0 0 0

/-- C4 counterexample: the claim "the accumulated v is negative iff CCW is
false" fails on this committed triangle: its CCW is false and yet its
accumulated v is 0, not negative. -/
theorem c4_sign_of_v_counterexample :
    0 ≤ pC4.minv ∧ ∃ e ∈ ex4run.events, ¬(e.v < 0 ↔ e.ccw = false) := by
  refine ⟨by decide, ?_⟩
  have h : ex4run.events.any (fun e => (!e.ccw) && decide (0 ≤ e.v)) = true := by
    with_unfolding_all rfl
  obtain ⟨e, he, hp⟩ := List.any_eq_true.mp h
  rw [Bool.and_eq_true] at hp
  refine ⟨e, he, fun hiff => ?_⟩
  have h1 : e.ccw = false := by simpa using hp.1
  have h2 : (0:ℚ) ≤ e.v := by simpa using hp.2
  exact absurd (hiff.mpr h1) (not_lt.mpr h2)

/-! ### Claim C8: termination of the triple recursion -/

theorem fuelBound_pos (cl : Call) : 1 ≤ fuelBound cl := by
  match cl with
  | .p3 _ _ => simp only [fuelBound]; omega
  | .p12 _ _ _ _ _ => simp only [fuelBound]; omega
  | .p111 _ _ _ _ _ _ _ _ _ _ _ _ => simp only [fuelBound]; omega
  | .pS _ _ _ _ _ _ _ _ _ _ _ _ => simp only [fuelBound]; omega

set_option maxHeartbeats 2000000 in
/-- A halting plan never reports fuel exhaustion. -/
theorem plan_halt_status (P : Params) (ops : NumOps) (cl : Call) (r : Res)
    (h : plan P ops cl = .halt r) : r.status ≠ .out := by
  match cl with
  | .p3 self c1 =>
    revert h
    simp only [plan]
    repeat' split
    all_goals intro h
    all_goals cases h
    all_goals simp
  | .p12 self b212 b221 c1 c2 =>
    revert h
    simp only [plan]
    repeat' split
    all_goals intro h
    all_goals cases h
    all_goals simp
  | .p111 i1 i2 i3 i4 i5 i6 c1 c2 c3 e1 e2 e3 =>
    revert h
    simp only [plan]
    repeat' split
    all_goals intro h
    all_goals cases h
    all_goals simp
  | .pS i1 i2 i3 i4 i5 i6 c1 c2 c3 e1 e2 e3 =>
    revert h
    simp only [plan]
    repeat' split
    all_goals intro h
    all_goals cases h
    all_goals simp

set_option maxHeartbeats 4000000 in
/-- Every sub-call of a plan strictly decreases the fuel budget: the split
recursion always descends into children of at least one cell, and the
entry hand-offs cost bounded overhead. -/
theorem plan_calls_fuel (P : Params) (ops : NumOps) (cl : Call) (l : List Call)
    (h : plan P ops cl = .calls l) :
    ∀ cx ∈ l, fuelBound cx < fuelBound cl := by
  match cl with
  | .p3 self c1 =>
    revert h
    simp only [plan]
    repeat' split
    all_goals intro h
    all_goals cases h
    all_goals intro cx hcx
    all_goals fin_cases hcx
    all_goals simp [fuelBound, Cell.cdepth]
    all_goals omega
  | .p12 self b212 b221 c1 c2 =>
    revert h
    simp only [plan]
    repeat' split
    all_goals intro h
    all_goals cases h
    all_goals intro cx hcx
    all_goals fin_cases hcx
    all_goals simp [fuelBound, Cell.cdepth]
    all_goals omega
  | .p111 i1 i2 i3 i4 i5 i6 c1 c2 c3 e1 e2 e3 =>
    revert h
    simp only [plan]
    repeat' split
    all_goals intro h
    all_goals cases h
    all_goals intro cx hcx
    all_goals fin_cases hcx
    all_goals simp [fuelBound, Cell.cdepth]
    all_goals omega
  | .pS i1 i2 i3 i4 i5 i6 c1 c2 c3 e1 e2 e3 =>
    revert h
    simp only [plan]
    repeat' split
    all_goals intro h
    all_goals cases h
    all_goals intro cx hcx
    all_goals fin_cases hcx
    all_goals simp [fuelBound, Cell.cdepth]
    all_goals omega

/-- Fuel adequacy: a fuel budget of fuelBound suffices; the run never
exhausts fuel, i.e. the recursion terminates within a depth linear in the
cell depths. -/
theorem exec_adequate (P : Params) (ops : NumOps) :
    ∀ (fuel : ℕ) (cl : Call), fuelBound cl ≤ fuel →
      (exec P ops fuel cl).status ≠ .out := by
  intro fuel
  induction fuel with
  | zero =>
    intro cl h
    have := fuelBound_pos cl
    omega
  | succ n ih =>
    intro cl h
    rw [exec]
    rcases hp : plan P ops cl with r | l
    · exact plan_halt_status P ops cl r hp
    · refine seqList_ne_status _ (by simp) _ ?_
      intro r2 h2
      rw [List.mem_map] at h2
      obtain ⟨cx, hcx, rfl⟩ := h2
      refine ih cx ?_
      have := plan_calls_fuel P ops cl l hp cx hcx
      omega

/-- The split decision only ever splits cells of positive size, and when
it decides to split it splits at least one cell.  Stated over an abstract
result record r equal to the split decision. -/
theorem splitTriple_flags (P : Params) (ops : NumOps)
    (d1sq d2sq d3sq d2 s1 s2 s3 : ℚ) (r : SplitRes)
    (h1 : 0 ≤ s1) (h2 : 0 ≤ s2) (h3 : 0 ≤ s3) (hq2 : 0 ≤ d2sq) (hq3 : 0 ≤ d3sq)
    (hr : splitTriple P ops d1sq d2sq d3sq d2 s1 s2 s3 = r) :
    (r.split1 = true → 0 < s1) ∧
    (r.split2 = true → 0 < s2) ∧
    (r.split3 = true → 0 < s3) ∧
    (r.split = true → (r.split1 = true ∨ r.split2 = true ∨ r.split3 = true)) := by
  revert hr
  simp only [splitTriple]
  split_ifs with hA hB hC hS hS2
  all_goals intro hr
  all_goals cases hr
  · -- split3 branch
    rw [decide_eq_true_iff] at hA
    have haux : 0 ≤ s3 * s3 * d3sq := mul_nonneg (mul_self_nonneg s3) hq3
    refine ⟨?_, ?_, fun _ => hA.1, fun _ => Or.inr (Or.inr rfl)⟩
    · intro hx
      rw [decide_eq_true_iff] at hx
      rcases lt_or_eq_of_le h1 with hgt | heq
      · exact hgt
      · exfalso
        rw [← heq] at hx
        simp only [sq] at hx
        simp only [sq] at haux
        linarith
    · intro hx
      rw [decide_eq_true_iff] at hx
      rcases lt_or_eq_of_le h2 with hgt | heq
      · exact hgt
      · exfalso
        rw [← heq] at hx
        simp only [sq] at hx
        simp only [sq] at haux
        linarith
  · -- u/v tolerance split of c1 or c2 (s1ps3 branch reached)
    refine ⟨?_, ?_, fun hx => absurd hx (by simp), ?_⟩
    · intro hx
      rw [Bool.or_eq_true] at hx
      rcases hx with hx | hx
      · exact (decide_eq_true_iff.mp hx).1
      · rw [decide_eq_true_iff] at hx
        rcases lt_or_eq_of_le h1 with hgt | heq
        · exact hgt
        · exfalso
          rcases hB with hs | hs
          · rw [← heq] at hs
            exact absurd hs (lt_irrefl 0)
          · have hz : s2 ≤ 0 := heq ▸ hx
            exact absurd hs (not_lt.mpr hz)
    · intro hx
      rw [Bool.or_eq_true] at hx
      rcases hx with hx | hx
      · exact (decide_eq_true_iff.mp hx).1
      · rw [decide_eq_true_iff] at hx
        rcases lt_or_eq_of_le h2 with hgt | heq
        · exact hgt
        · exfalso
          rcases hB with hs | hs
          · have hz : s1 ≤ 0 := heq ▸ hx
            exact absurd hs (not_lt.mpr hz)
          · rw [← heq] at hs
            exact absurd hs (lt_irrefl 0)
    · intro _
      rcases le_total s2 s1 with hle | hle
      · refine Or.inl ?_
        rw [Bool.or_eq_true]
        exact Or.inr (decide_eq_true hle)
      · refine Or.inr (Or.inl ?_)
        rw [Bool.or_eq_true]
        exact Or.inr (decide_eq_true hle)
  · exact ⟨fun hx => absurd hx (by simp), fun hx => absurd hx (by simp),
      fun hx => absurd hx (by simp), fun hx => absurd hx (by simp)⟩
  · -- u/v tolerance split of c1 or c2 (s1ps3 left at 0)
    refine ⟨?_, ?_, fun hx => absurd hx (by simp), ?_⟩
    · intro hx
      rw [Bool.or_eq_true] at hx
      rcases hx with hx | hx
      · exact (decide_eq_true_iff.mp hx).1
      · rw [decide_eq_true_iff] at hx
        rcases lt_or_eq_of_le h1 with hgt | heq
        · exact hgt
        · exfalso
          rcases hB with hs | hs
          · rw [← heq] at hs
            exact absurd hs (lt_irrefl 0)
          · have hz : s2 ≤ 0 := heq ▸ hx
            exact absurd hs (not_lt.mpr hz)
    · intro hx
      rw [Bool.or_eq_true] at hx
      rcases hx with hx | hx
      · exact (decide_eq_true_iff.mp hx).1
      · rw [decide_eq_true_iff] at hx
        rcases lt_or_eq_of_le h2 with hgt | heq
        · exact hgt
        · exfalso
          rcases hB with hs | hs
          · have hz : s1 ≤ 0 := heq ▸ hx
            exact absurd hs (not_lt.mpr hz)
          · rw [← heq] at hs
            exact absurd hs (lt_irrefl 0)
    · intro _
      rcases le_total s2 s1 with hle | hle
      · refine Or.inl ?_
        rw [Bool.or_eq_true]
        exact Or.inr (decide_eq_true hle)
      · refine Or.inr (Or.inl ?_)
        rw [Bool.or_eq_true]
        exact Or.inr (decide_eq_true hle)
  · exact ⟨fun hx => absurd hx (by simp), fun hx => absurd hx (by simp),
      fun hx => absurd hx (by simp), fun hx => absurd hx (by simp)⟩
  · exact ⟨fun hx => absurd hx (by simp), fun hx => absurd hx (by simp),
      fun hx => absurd hx (by simp), fun hx => absurd hx (by simp)⟩

/-- Parameters for the C8 counterexample runs. -/
def pC8 : Params := mkParams testOps 1 1000 1 1 (1/100) 0 1 2 (1/2) (1/100) 0 1 5 (1/5) (1/100)

/-- A depth-1 tree of two coincident points at the origin. -/
def t8a : Cell := .node (0, 0) 1 2 2 (.leaf (0, 0) 0 1 1) (.leaf (0, 0) 0 1 1)

set_option maxRecDepth 4000 in
/-- C8 counterexample to the depth clause: the three input trees have
depth 1, 0 and 0, yet running process111 with a recursion-depth budget of
3 frames (three times the maximal tree depth, and more than the claimed
bound) still exhausts the budget, while 4 frames complete the run: the
recursion depth is not bounded by the tree depth. -/
theorem c8_depth_counterexample :
    t8a.cdepth = 1 ∧ wc2.cdepth = 0 ∧ wc3.cdepth = 0 ∧
    (process111 pC8 testOps 3 0 1 2 3 4 5 t8a wc2 wc3 0 0 0).status = .out ∧
    (process111 pC8 testOps 4 0 1 2 3 4 5 t8a wc2 wc3 0 0 0).status = .ok := by
  refine ⟨rfl, rfl, rfl, by with_unfolding_all rfl, by with_unfolding_all rfl⟩

/-- C8 (amended): the four mutually recursive procedures always terminate:
a recursion-depth budget of fuelBound (2*(depth c1 + depth c2 + depth c3)
+ 2 for process111Sorted, 2*depth c1 + 4*depth c2 + 5 for process12,
6*depth c1 + 6 for process3 - linear in the cell depths, not the tree
depth itself) is never exhausted; and every recursive step of
process111Sorted splits at least one cell, each split cell having
positive size. -/
theorem c8_termination_and_split_step :
    (∀ (P : Params) (ops : NumOps) (fuel : ℕ) (cl : Call),
      fuelBound cl ≤ fuel → (exec P ops fuel cl).status ≠ .out) ∧
    (∀ (P : Params) (ops : NumOps) (d1sq d2sq d3sq d2 s1 s2 s3 : ℚ),
      0 ≤ s1 → 0 ≤ s2 → 0 ≤ s3 → 0 ≤ d2sq → 0 ≤ d3sq →
      (splitTriple P ops d1sq d2sq d3sq d2 s1 s2 s3).split = true →
      ((splitTriple P ops d1sq d2sq d3sq d2 s1 s2 s3).split1 = true → 0 < s1) ∧
      ((splitTriple P ops d1sq d2sq d3sq d2 s1 s2 s3).split2 = true → 0 < s2) ∧
      ((splitTriple P ops d1sq d2sq d3sq d2 s1 s2 s3).split3 = true → 0 < s3) ∧
      ((splitTriple P ops d1sq d2sq d3sq d2 s1 s2 s3).split1 = true ∨
       (splitTriple P ops d1sq d2sq d3sq d2 s1 s2 s3).split2 = true ∨
       (splitTriple P ops d1sq d2sq d3sq d2 s1 s2 s3).split3 = true)) :=
  ⟨fun P ops fuel cl h => exec_adequate P ops fuel cl h,
   fun P ops d1sq d2sq d3sq d2 s1 s2 s3 h1 h2 h3 hq2 hq3 hsp =>
     have hfl := splitTriple_flags P ops d1sq d2sq d3sq d2 s1 s2 s3
       (splitTriple P ops d1sq d2sq d3sq d2 s1 s2 s3) h1 h2 h3 hq2 hq3 rfl
     ⟨hfl.1, hfl.2.1, hfl.2.2.1, hfl.2.2.2 hsp⟩⟩

theorem c8_termination_and_split_step_witness :
    (fuelBound (.p111 0 1 2 3 4 5 t8a wc2 wc3 0 0 0) ≤ 9 ∧
     (exec pC8 testOps 9 (.p111 0 1 2 3 4 5 t8a wc2 wc3 0 0 0)).status ≠ .out) ∧
    ((0:ℚ) ≤ 0 ∧ (0:ℚ) ≤ 1 ∧ (0:ℚ) ≤ 4 ∧
     (splitTriple pC8 testOps 4 4 4 2 0 0 1).split = true ∧
     ((splitTriple pC8 testOps 4 4 4 2 0 0 1).split1 = true ∨
      (splitTriple pC8 testOps 4 4 4 2 0 0 1).split2 = true ∨
      (splitTriple pC8 testOps 4 4 4 2 0 0 1).split3 = true)) := by
  constructor
  · exact ⟨by decide,
      c8_termination_and_split_step.1 pC8 testOps 9 (.p111 0 1 2 3 4 5 t8a wc2 wc3 0 0 0)
        (by decide)⟩
  · refine ⟨le_refl 0, by norm_num, by norm_num, by with_unfolding_all rfl, ?_⟩
    exact (c8_termination_and_split_step.2 pC8 testOps 4 4 4 2 0 0 1
      (le_refl 0) (le_refl 0) (by norm_num) (by norm_num) (by norm_num)
      (by with_unfolding_all rfl)).2.2.2

theorem c10_process3_child_safety_witness :
    leavesZero wc1 = true ∧
    pC3.halfminsep = (1/2 : ℚ) * pC3.minsep ∧ 0 < pC3.minsep ∧
    (process3 pC3 testOps 5 0 wc1).status ≠ .bad .s3 := by
  refine ⟨by decide, by with_unfolding_all rfl, by norm_num [pC3, mkParams], ?_⟩
  exact (c10_process3_child_safety.1) pC3 testOps 5 0 wc1 (by decide)
    (by with_unfolding_all rfl) (by norm_num [pC3, mkParams])

theorem c3_split3_amended_witness :
    (0:ℚ) ≤ 0 ∧ (0:ℚ) ≤ 3 ∧ (2:ℚ) * 2 = 4 ∧ (0:ℚ) ≤ 2 ∧ (4:ℚ) ≥ 4 ∧ (4:ℚ) ≥ 1 ∧
    stop111 pC3 4 4 1 2 0 0 3 = false ∧
    (splitTriple pC3 testOps 4 4 1 2 0 0 3).split3 = split3Amended pC3 0 3 2 4 1 := by
  refine ⟨le_refl 0, by norm_num, by norm_num, by norm_num, le_refl 4, by norm_num,
    by with_unfolding_all rfl, ?_⟩
  exact c3_split3_amended pC3 testOps 4 4 1 2 0 0 3 (le_refl 0) (by norm_num)
    (by norm_num) (by norm_num) (le_refl 4) (by norm_num) (by with_unfolding_all rfl)


/-! ### Claim C1: plan-level conservation -/

theorem goodTree_node {p : Pos} {s w : ℚ} {n : ℕ} {a b : Cell}
    (h : goodTree (.node p s w n a b) = true) :
    n = a.getN + b.getN ∧ goodTree a = true ∧ goodTree b = true := by
  simp only [goodTree, Bool.and_eq_true, decide_eq_true_iff] at h
  exact ⟨h.1.1.1, h.1.2, h.2⟩

set_option maxHeartbeats 2000000 in
theorem plan_calls_good (P : Params) (ops : NumOps) (cl : Call) (l : List Call)
    (hg : goodCall cl = true) (h : plan P ops cl = .calls l) :
    ∀ cx ∈ l, goodCall cx = true := by
  match cl with
  | .p3 self (.leaf p s w n) =>
    revert h
    simp only [plan]
    repeat' split
    all_goals intro h
    all_goals cases h
  | .p3 self (.node p s w n a b) =>
    simp only [goodCall, callCells, List.all_cons, List.all_nil, Bool.and_true] at hg
    obtain ⟨hn, hl, hr⟩ := goodTree_node hg
    revert h
    simp only [plan]
    repeat' split
    all_goals intro h
    all_goals cases h
    all_goals intro cx hcx
    all_goals fin_cases hcx
    all_goals simp only [goodCall, callCells, List.all_cons, List.all_nil, Bool.and_true,
      Bool.and_eq_true]
    all_goals tauto
  | .p12 self b212 b221 c1 (.leaf p s w n) =>
    revert h
    simp only [plan]
    repeat' split
    all_goals intro h
    all_goals cases h
  | .p12 self b212 b221 c1 (.node p s w n a b) =>
    simp only [goodCall, callCells, List.all_cons, List.all_nil, Bool.and_true,
      Bool.and_eq_true] at hg
    obtain ⟨hg1, hg2⟩ := hg
    obtain ⟨hn, hl, hr⟩ := goodTree_node hg2
    revert h
    simp only [plan]
    repeat' split
    all_goals intro h
    all_goals cases h
    all_goals intro cx hcx
    all_goals fin_cases hcx
    all_goals simp only [goodCall, callCells, List.all_cons, List.all_nil, Bool.and_true,
      Bool.and_eq_true]
    all_goals tauto
  | .p111 i1 i2 i3 i4 i5 i6 c1 c2 c3 e1 e2 e3 =>
    simp only [goodCall, callCells, List.all_cons, List.all_nil, Bool.and_true,
      Bool.and_eq_true] at hg
    revert h
    simp only [plan]
    repeat' split
    all_goals intro h
    all_goals cases h
    all_goals intro cx hcx
    all_goals fin_cases hcx
    all_goals simp only [goodCall, callCells, List.all_cons, List.all_nil, Bool.and_true,
      Bool.and_eq_true]
    all_goals tauto
  | .pS i1 i2 i3 i4 i5 i6 c1 c2 c3 e1 e2 e3 =>
    simp only [goodCall, callCells, List.all_cons, List.all_nil, Bool.and_true,
      Bool.and_eq_true] at hg
    obtain ⟨hg1, hg2, hg3⟩ := hg
    revert h
    simp only [plan]
    repeat' split
    all_goals intro h
    all_goals cases h
    all_goals intro cx hcx
    all_goals try simp only [goodTree, Bool.and_eq_true, decide_eq_true_iff] at hg1
    all_goals try simp only [goodTree, Bool.and_eq_true, decide_eq_true_iff] at hg2
    all_goals try simp only [goodTree, Bool.and_eq_true, decide_eq_true_iff] at hg3
    all_goals fin_cases hcx
    all_goals simp only [goodCall, callCells, List.all_cons, List.all_nil, Bool.and_true,
      Bool.and_eq_true]
    all_goals tauto

theorem getN_node (p : Pos) (s w : ℚ) (n : ℕ) (a b : Cell) :
    Cell.getN (.node p s w n a b) = n := rfl

theorem getN_leaf (p : Pos) (s w : ℚ) (n : ℕ) :
    Cell.getN (.leaf p s w n) = n := rfl

set_option maxHeartbeats 2000000 in
theorem plan_calls_value (P : Params) (ops : NumOps) (cl : Call) (l : List Call)
    (hg : goodCall cl = true) (h : plan P ops cl = .calls l) :
    (l.map callValue).sum = callValue cl := by
  match cl with
  | .p3 self (.leaf p s w n) =>
    revert h
    simp only [plan]
    repeat' split
    all_goals intro h
    all_goals cases h
  | .p3 self (.node p s w n a b) =>
    simp only [goodCall, callCells, List.all_cons, List.all_nil, Bool.and_true] at hg
    obtain ⟨hn, -, -⟩ := goodTree_node hg
    revert h
    simp only [plan]
    repeat' split
    all_goals intro h
    all_goals cases h
    all_goals simp only [List.map_cons, List.map_nil, List.sum_cons, List.sum_nil, add_zero,
      callValue, getN_node, getN_leaf, q3, q2]
    all_goals rw [hn]
    all_goals push_cast
    all_goals ring
  | .p12 self b212 b221 c1 (.leaf p s w n) =>
    revert h
    simp only [plan]
    repeat' split
    all_goals intro h
    all_goals cases h
  | .p12 self b212 b221 c1 (.node p s w n a b) =>
    simp only [goodCall, callCells, List.all_cons, List.all_nil, Bool.and_true,
      Bool.and_eq_true] at hg
    obtain ⟨hn, -, -⟩ := goodTree_node hg.2
    revert h
    simp only [plan]
    repeat' split
    all_goals intro h
    all_goals cases h
    all_goals simp only [List.map_cons, List.map_nil, List.sum_cons, List.sum_nil, add_zero,
      callValue, getN_node, getN_leaf, q3, q2]
    all_goals rw [hn]
    all_goals push_cast
    all_goals ring
  | .p111 i1 i2 i3 i4 i5 i6 c1 c2 c3 e1 e2 e3 =>
    revert h
    simp only [plan]
    repeat' split
    all_goals intro h
    all_goals cases h
    all_goals simp only [List.map_cons, List.map_nil, List.sum_cons, List.sum_nil, add_zero,
      callValue]
    all_goals ring
  | .pS i1 i2 i3 i4 i5 i6 c1 c2 c3 e1 e2 e3 =>
    simp only [goodCall, callCells, List.all_cons, List.all_nil, Bool.and_true,
      Bool.and_eq_true] at hg
    obtain ⟨hg1, hg2, hg3⟩ := hg
    revert h
    simp only [plan]
    repeat' split
    all_goals intro h
    all_goals cases h
    all_goals try simp only [goodTree, Bool.and_eq_true, decide_eq_true_iff] at hg1
    all_goals try simp only [goodTree, Bool.and_eq_true, decide_eq_true_iff] at hg2
    all_goals try simp only [goodTree, Bool.and_eq_true, decide_eq_true_iff] at hg3
    all_goals try obtain ⟨⟨⟨hn1, -⟩, -⟩, -⟩ := hg1
    all_goals try obtain ⟨⟨⟨hn2, -⟩, -⟩, -⟩ := hg2
    all_goals try obtain ⟨⟨⟨hn3, -⟩, -⟩, -⟩ := hg3
    all_goals simp only [List.map_cons, List.map_nil, List.sum_cons, List.sum_nil, add_zero,
      callValue, getN_node, getN_leaf]
    all_goals try rw [hn1]
    all_goals try rw [hn2]
    all_goals try rw [hn3]
    all_goals push_cast
    all_goals ring

theorem seqList_ok_sum (rs : List Res) (h : ∀ r ∈ rs, r.status = .ok) :
    (seqList rs).status = .ok ∧
      nnnSum (seqList rs).events = (rs.map (fun r => nnnSum r.events)).sum := by
  induction rs with
  | nil => exact ⟨rfl, rfl⟩
  | cons r rest ih =>
    have h1 := h r (by simp)
    have ih2 := ih (fun r2 hr2 => h r2 (by simp [hr2]))
    have hseq := Res.seq_ok h1 ih2.1
    refine ⟨hseq.1, ?_⟩
    show nnnSum ((r.seq (seqList rest)).events) = _
    rw [hseq.2, ih2.2]
    simp

/-- Conservation at the recursion level: a run that never prunes finishes
normally and commits triple counts summing exactly to the count the call
covers. -/
theorem exec_conserve (P : Params) (ops : NumOps) :
    ∀ (fuel : ℕ) (cl : Call), goodCall cl = true → noPrune P ops fuel cl = true →
      (exec P ops fuel cl).status = .ok ∧
        nnnSum (exec P ops fuel cl).events = callValue cl := by
  intro fuel
  induction fuel with
  | zero => intro cl _ hnp; simp [noPrune] at hnp
  | succ n ih =>
    intro cl hgood hnp
    simp only [noPrune] at hnp
    rw [exec]
    rcases hp : plan P ops cl with r | l <;> rw [hp] at hnp
    · exact decide_eq_true_iff.mp hnp
    · rw [List.all_eq_true] at hnp
      have hgoods := plan_calls_good P ops cl l hgood hp
      have hvals := plan_calls_value P ops cl l hgood hp
      have hok : ∀ r2 ∈ l.map (exec P ops n), r2.status = .ok := by
        intro r2 hr2
        rw [List.mem_map] at hr2
        obtain ⟨cx, hcx, rfl⟩ := hr2
        exact (ih cx (hgoods cx hcx) (hnp cx hcx)).1
      have hs := seqList_ok_sum (l.map (exec P ops n)) hok
      refine ⟨hs.1, ?_⟩
      show nnnSum (seqList (l.map (exec P ops n))).events = _
      rw [hs.2, ← hvals, List.map_map]
      exact congrArg List.sum (List.map_congr_left
        (fun cx hcx => (ih cx (hgoods cx hcx) (hnp cx hcx)).2))

/-- Conservation for a driver's list of top-level calls. -/
theorem runCalls_conserve (P : Params) (ops : NumOps) (fuel : ℕ) (l : List Call)
    (hgood : ∀ cl ∈ l, goodCall cl = true)
    (hnp : ∀ cl ∈ l, noPrune P ops fuel cl = true) :
    (runCalls P ops fuel l).status = .ok ∧
      nnnSum (runCalls P ops fuel l).events = (l.map callValue).sum := by
  have hok : ∀ r2 ∈ l.map (exec P ops fuel), r2.status = .ok := by
    intro r2 hr2
    rw [List.mem_map] at hr2
    obtain ⟨cx, hcx, rfl⟩ := hr2
    exact (exec_conserve P ops fuel cx (hgood cx hcx) (hnp cx hcx)).1
  have hs := seqList_ok_sum (l.map (exec P ops fuel)) hok
  refine ⟨hs.1, ?_⟩
  show nnnSum (seqList (l.map (exec P ops fuel))).events = _
  rw [hs.2, List.map_map]
  exact congrArg List.sum (List.map_congr_left
    (fun cx hcx => (exec_conserve P ops fuel cx (hgood cx hcx) (hnp cx hcx)).2))

theorem autoTriples_value (c1 c2 : Cell) (l : List Cell) :
    ((autoTriples c1 c2 l).map callValue).sum =
      (c1.getN : ℚ) * (c2.getN : ℚ) * (sumN l : ℚ) := by
  induction l with
  | nil => simp [autoTriples, sumN]
  | cons c rest ih =>
    simp only [autoTriples, List.map_cons, List.sum_cons, ih, callValue, sumN]
    push_cast
    ring

theorem autoPairs_value (c1 : Cell) (l : List Cell) :
    ((autoPairs c1 l).map callValue).sum =
      q3 (c1.getN + sumN l) - q3 c1.getN - q3 (sumN l) := by
  induction l with
  | nil => simp [autoPairs, sumN, q3]
  | cons c rest ih =>
    simp only [autoPairs, List.map_cons, List.sum_cons, List.map_append, List.sum_append,
      autoTriples_value, ih, callValue, sumN, q3, q2]
    push_cast
    ring

theorem autoCalls_value (l : List Cell) :
    ((autoCalls l).map callValue).sum = q3 (sumN l) := by
  induction l with
  | nil => norm_num [autoCalls, sumN, q3]
  | cons c rest ih =>
    simp only [autoCalls, List.map_cons, List.sum_cons, List.map_append, List.sum_append,
      autoPairs_value, ih, callValue, sumN, q3]
    push_cast
    ring

theorem cross12Triples_value (c1 c2 : Cell) (l : List Cell) :
    ((cross12Triples c1 c2 l).map callValue).sum =
      (c1.getN : ℚ) * (c2.getN : ℚ) * (sumN l : ℚ) := by
  induction l with
  | nil => simp [cross12Triples, sumN]
  | cons c rest ih =>
    simp only [cross12Triples, List.map_cons, List.sum_cons, ih, callValue, sumN]
    push_cast
    ring

theorem cross12Inner_value (c1 : Cell) (l : List Cell) :
    ((cross12Inner c1 l).map callValue).sum = (c1.getN : ℚ) * q2 (sumN l) := by
  induction l with
  | nil => simp [cross12Inner, sumN, q2]
  | cons c rest ih =>
    simp only [cross12Inner, List.map_cons, List.sum_cons, List.map_append, List.sum_append,
      cross12Triples_value, ih, callValue, sumN, q2]
    push_cast
    ring

theorem cross12Calls_value (f2 f1 : List Cell) :
    ((cross12Calls f2 f1).map callValue).sum = (sumN f1 : ℚ) * q2 (sumN f2) := by
  induction f1 with
  | nil => simp [cross12Calls, sumN]
  | cons c rest ih =>
    simp only [cross12Calls, List.map_append, List.sum_append, List.map_cons,
      List.sum_cons, cross12Inner_value, ih, sumN, q2]
    push_cast
    ring

theorem cross111Triples_value (c1 c2 : Cell) (l : List Cell) :
    ((cross111Triples c1 c2 l).map callValue).sum =
      (c1.getN : ℚ) * (c2.getN : ℚ) * (sumN l : ℚ) := by
  induction l with
  | nil => simp [cross111Triples, sumN]
  | cons c rest ih =>
    simp only [cross111Triples, List.map_cons, List.sum_cons, ih, callValue, sumN]
    push_cast
    ring

theorem cross111Inner_value (c1 : Cell) (f3 : List Cell) (l : List Cell) :
    ((cross111Inner c1 f3 l).map callValue).sum =
      (c1.getN : ℚ) * (sumN l : ℚ) * (sumN f3 : ℚ) := by
  induction l with
  | nil => simp [cross111Inner, sumN]
  | cons c rest ih =>
    simp only [cross111Inner, List.map_append, List.sum_append, List.map_cons,
      List.sum_cons, cross111Triples_value, ih, sumN]
    push_cast
    ring

theorem cross111Calls_value (f2 f3 f1 : List Cell) :
    ((cross111Calls f2 f3 f1).map callValue).sum =
      (sumN f1 : ℚ) * (sumN f2 : ℚ) * (sumN f3 : ℚ) := by
  induction f1 with
  | nil => simp [cross111Calls, sumN]
  | cons c rest ih =>
    simp only [cross111Calls, List.map_append, List.sum_append, List.map_cons,
      List.sum_cons, cross111Inner_value, ih, sumN]
    push_cast
    ring

theorem autoTriples_good (c1 c2 : Cell) (h1 : goodTree c1 = true) (h2 : goodTree c2 = true)
    (l : List Cell) (hl : ∀ c ∈ l, goodTree c = true) :
    ∀ cl ∈ autoTriples c1 c2 l, goodCall cl = true := by
  induction l with
  | nil => intro cl hcl; simp [autoTriples] at hcl
  | cons c rest ih =>
    intro cl hcl
    rcases List.mem_cons.mp hcl with rfl | hcl
    · simp [goodCall, callCells, h1, h2, hl c (by simp)]
    · exact ih (fun cx hcx => hl cx (by simp [hcx])) cl hcl

theorem autoPairs_good (c1 : Cell) (h1 : goodTree c1 = true)
    (l : List Cell) (hl : ∀ c ∈ l, goodTree c = true) :
    ∀ cl ∈ autoPairs c1 l, goodCall cl = true := by
  induction l with
  | nil => intro cl hcl; simp [autoPairs] at hcl
  | cons c rest ih =>
    intro cl hcl
    have hc : goodTree c = true := hl c (by simp)
    have hrest : ∀ cx ∈ rest, goodTree cx = true := fun cx hcx => hl cx (by simp [hcx])
    rcases List.mem_cons.mp hcl with rfl | hcl
    · simp [goodCall, callCells, h1, hc]
    rcases List.mem_cons.mp hcl with rfl | hcl
    · simp [goodCall, callCells, h1, hc]
    rcases List.mem_append.mp hcl with hcl | hcl
    · exact autoTriples_good c1 c h1 hc rest hrest cl hcl
    · exact ih hrest cl hcl

theorem autoCalls_good (l : List Cell) (hl : ∀ c ∈ l, goodTree c = true) :
    ∀ cl ∈ autoCalls l, goodCall cl = true := by
  induction l with
  | nil => intro cl hcl; simp [autoCalls] at hcl
  | cons c rest ih =>
    intro cl hcl
    have hc : goodTree c = true := hl c (by simp)
    have hrest : ∀ cx ∈ rest, goodTree cx = true := fun cx hcx => hl cx (by simp [hcx])
    rcases List.mem_cons.mp hcl with rfl | hcl
    · simp [goodCall, callCells, hc]
    rcases List.mem_append.mp hcl with hcl | hcl
    · exact autoPairs_good c hc rest hrest cl hcl
    · exact ih hrest cl hcl

theorem cross12Triples_good (c1 c2 : Cell) (h1 : goodTree c1 = true)
    (h2 : goodTree c2 = true) (l : List Cell) (hl : ∀ c ∈ l, goodTree c = true) :
    ∀ cl ∈ cross12Triples c1 c2 l, goodCall cl = true := by
  induction l with
  | nil => intro cl hcl; simp [cross12Triples] at hcl
  | cons c rest ih =>
    intro cl hcl
    rcases List.mem_cons.mp hcl with rfl | hcl
    · simp [goodCall, callCells, h1, h2, hl c (by simp)]
    · exact ih (fun cx hcx => hl cx (by simp [hcx])) cl hcl

theorem cross12Inner_good (c1 : Cell) (h1 : goodTree c1 = true)
    (l : List Cell) (hl : ∀ c ∈ l, goodTree c = true) :
    ∀ cl ∈ cross12Inner c1 l, goodCall cl = true := by
  induction l with
  | nil => intro cl hcl; simp [cross12Inner] at hcl
  | cons c rest ih =>
    intro cl hcl
    have hc : goodTree c = true := hl c (by simp)
    have hrest : ∀ cx ∈ rest, goodTree cx = true := fun cx hcx => hl cx (by simp [hcx])
    rcases List.mem_cons.mp hcl with rfl | hcl
    · simp [goodCall, callCells, h1, hc]
    rcases List.mem_append.mp hcl with hcl | hcl
    · exact cross12Triples_good c1 c h1 hc rest hrest cl hcl
    · exact ih hrest cl hcl

theorem cross12Calls_good (f2 : List Cell) (h2 : ∀ c ∈ f2, goodTree c = true)
    (l : List Cell) (hl : ∀ c ∈ l, goodTree c = true) :
    ∀ cl ∈ cross12Calls f2 l, goodCall cl = true := by
  induction l with
  | nil => intro cl hcl; simp [cross12Calls] at hcl
  | cons c rest ih =>
    intro cl hcl
    rcases List.mem_append.mp hcl with hcl | hcl
    · exact cross12Inner_good c (hl c (by simp)) f2 h2 cl hcl
    · exact ih (fun cx hcx => hl cx (by simp [hcx])) cl hcl

theorem cross111Triples_good (c1 c2 : Cell) (h1 : goodTree c1 = true)
    (h2 : goodTree c2 = true) (l : List Cell) (hl : ∀ c ∈ l, goodTree c = true) :
    ∀ cl ∈ cross111Triples c1 c2 l, goodCall cl = true := by
  induction l with
  | nil => intro cl hcl; simp [cross111Triples] at hcl
  | cons c rest ih =>
    intro cl hcl
    rcases List.mem_cons.mp hcl with rfl | hcl
    · simp [goodCall, callCells, h1, h2, hl c (by simp)]
    · exact ih (fun cx hcx => hl cx (by simp [hcx])) cl hcl

theorem cross111Inner_good (c1 : Cell) (h1 : goodTree c1 = true)
    (f3 : List Cell) (h3 : ∀ c ∈ f3, goodTree c = true)
    (l : List Cell) (hl : ∀ c ∈ l, goodTree c = true) :
    ∀ cl ∈ cross111Inner c1 f3 l, goodCall cl = true := by
  induction l with
  | nil => intro cl hcl; simp [cross111Inner] at hcl
  | cons c rest ih =>
    intro cl hcl
    rcases List.mem_append.mp hcl with hcl | hcl
    · exact cross111Triples_good c1 c h1 (hl c (by simp)) f3 h3 cl hcl
    · exact ih (fun cx hcx => hl cx (by simp [hcx])) cl hcl

theorem cross111Calls_good (f2 : List Cell) (h2 : ∀ c ∈ f2, goodTree c = true)
    (f3 : List Cell) (h3 : ∀ c ∈ f3, goodTree c = true)
    (l : List Cell) (hl : ∀ c ∈ l, goodTree c = true) :
    ∀ cl ∈ cross111Calls f2 f3 l, goodCall cl = true := by
  induction l with
  | nil => intro cl hcl; simp [cross111Calls] at hcl
  | cons c rest ih =>
    intro cl hcl
    rcases List.mem_append.mp hcl with hcl | hcl
    · exact cross111Inner_good c (hl c (by simp)) f3 h3 f2 h2 cl hcl
    · exact ih (fun cx hcx => hl cx (by simp [hcx])) cl hcl

theorem autoTriples_ids (c1 c2 : Cell) (l : List Cell) :
    ∀ cl ∈ autoTriples c1 c2 l, ∀ i ∈ callIds cl, i < 1 := by
  induction l with
  | nil => intro cl hcl; simp [autoTriples] at hcl
  | cons c rest ih =>
    intro cl hcl
    rcases List.mem_cons.mp hcl with rfl | hcl
    · intro i hi; simp [callIds] at hi; omega
    · exact ih cl hcl

theorem autoPairs_ids (c1 : Cell) (l : List Cell) :
    ∀ cl ∈ autoPairs c1 l, ∀ i ∈ callIds cl, i < 1 := by
  induction l with
  | nil => intro cl hcl; simp [autoPairs] at hcl
  | cons c rest ih =>
    intro cl hcl
    rcases List.mem_cons.mp hcl with rfl | hcl
    · intro i hi; simp [callIds] at hi; omega
    rcases List.mem_cons.mp hcl with rfl | hcl
    · intro i hi; simp [callIds] at hi; omega
    rcases List.mem_append.mp hcl with hcl | hcl
    · exact autoTriples_ids c1 c rest cl hcl
    · exact ih cl hcl

theorem autoCalls_ids (l : List Cell) :
    ∀ cl ∈ autoCalls l, ∀ i ∈ callIds cl, i < 1 := by
  induction l with
  | nil => intro cl hcl; simp [autoCalls] at hcl
  | cons c rest ih =>
    intro cl hcl
    rcases List.mem_cons.mp hcl with rfl | hcl
    · intro i hi; simp [callIds] at hi; omega
    rcases List.mem_append.mp hcl with hcl | hcl
    · exact autoPairs_ids c rest cl hcl
    · exact ih cl hcl

theorem cross12Triples_ids (c1 c2 : Cell) (l : List Cell) :
    ∀ cl ∈ cross12Triples c1 c2 l, ∀ i ∈ callIds cl, i < 3 := by
  induction l with
  | nil => intro cl hcl; simp [cross12Triples] at hcl
  | cons c rest ih =>
    intro cl hcl
    rcases List.mem_cons.mp hcl with rfl | hcl
    · intro i hi; simp [callIds] at hi; omega
    · exact ih cl hcl

theorem cross12Inner_ids (c1 : Cell) (l : List Cell) :
    ∀ cl ∈ cross12Inner c1 l, ∀ i ∈ callIds cl, i < 3 := by
  induction l with
  | nil => intro cl hcl; simp [cross12Inner] at hcl
  | cons c rest ih =>
    intro cl hcl
    rcases List.mem_cons.mp hcl with rfl | hcl
    · intro i hi; simp [callIds] at hi; omega
    rcases List.mem_append.mp hcl with hcl | hcl
    · exact cross12Triples_ids c1 c rest cl hcl
    · exact ih cl hcl

theorem cross12Calls_ids (f2 : List Cell) (l : List Cell) :
    ∀ cl ∈ cross12Calls f2 l, ∀ i ∈ callIds cl, i < 3 := by
  induction l with
  | nil => intro cl hcl; simp [cross12Calls] at hcl
  | cons c rest ih =>
    intro cl hcl
    rcases List.mem_append.mp hcl with hcl | hcl
    · exact cross12Inner_ids c f2 cl hcl
    · exact ih cl hcl

theorem cross111Triples_ids (c1 c2 : Cell) (l : List Cell) :
    ∀ cl ∈ cross111Triples c1 c2 l, ∀ i ∈ callIds cl, i < 6 := by
  induction l with
  | nil => intro cl hcl; simp [cross111Triples] at hcl
  | cons c rest ih =>
    intro cl hcl
    rcases List.mem_cons.mp hcl with rfl | hcl
    · intro i hi; simp [callIds] at hi; omega
    · exact ih cl hcl

theorem cross111Inner_ids (c1 : Cell) (f3 : List Cell) (l : List Cell) :
    ∀ cl ∈ cross111Inner c1 f3 l, ∀ i ∈ callIds cl, i < 6 := by
  induction l with
  | nil => intro cl hcl; simp [cross111Inner] at hcl
  | cons c rest ih =>
    intro cl hcl
    rcases List.mem_append.mp hcl with hcl | hcl
    · exact cross111Triples_ids c1 c f3 cl hcl
    · exact ih cl hcl

theorem cross111Calls_ids (f2 f3 : List Cell) (l : List Cell) :
    ∀ cl ∈ cross111Calls f2 f3 l, ∀ i ∈ callIds cl, i < 6 := by
  induction l with
  | nil => intro cl hcl; simp [cross111Calls] at hcl
  | cons c rest ih =>
    intro cl hcl
    rcases List.mem_append.mp hcl with hcl | hcl
    · exact cross111Inner_ids c f3 f2 cl hcl
    · exact ih cl hcl

theorem binTotal_finish (ops : NumOps) (ntot : ℕ) (e : Event) (a : Acc)
    (hi : e.index.toNat < ntot) :
    binTotalNtri ntot (finishProcessN ops e a) = binTotalNtri ntot a + nnnQ e := by
  have hmem : e.index.toNat ∈ Finset.range ntot := Finset.mem_range.mpr hi
  unfold binTotalNtri finishProcessN nnnQ
  simp only []
  rw [Finset.sum_update_of_mem hmem, Finset.sdiff_singleton_eq_erase,
      ← Finset.add_sum_erase _ _ hmem]
  ring

theorem storeTotal_applyEvent (ops : NumOps) (S : Finset ℕ) (ntot : ℕ) (st : Store)
    (e : Event) (hs : e.slot ∈ S) (hi : e.index.toNat < ntot) :
    storeTotalNtri S ntot (applyEvent ops st e) = storeTotalNtri S ntot st + nnnQ e := by
  unfold storeTotalNtri applyEvent
  have h1 : ∀ s, binTotalNtri ntot
      (Function.update st e.slot (finishProcessN ops e (st e.slot)) s)
      = Function.update (fun k => binTotalNtri ntot (st k)) e.slot
          (binTotalNtri ntot (finishProcessN ops e (st e.slot))) s :=
    fun s => Function.apply_update (fun _ a => binTotalNtri ntot a) st e.slot _ s
  rw [Finset.sum_congr rfl (fun s _ => h1 s)]
  rw [Finset.sum_update_of_mem hs, binTotal_finish ops ntot e _ hi,
      Finset.sdiff_singleton_eq_erase, ← Finset.add_sum_erase _ _ hs]
  ring

theorem storeTotal_applyEvents (ops : NumOps) (S : Finset ℕ) (ntot : ℕ) :
    ∀ (l : List Event) (st : Store),
      (∀ e ∈ l, e.slot ∈ S ∧ e.index.toNat < ntot) →
      storeTotalNtri S ntot (applyEvents ops l st) =
        storeTotalNtri S ntot st + nnnSum l := by
  intro l
  induction l with
  | nil => intro st _; simp [applyEvents, nnnSum]
  | cons e rest ih =>
    intro st h
    have he := h e (by simp)
    show storeTotalNtri S ntot (applyEvents ops rest (applyEvent ops st e)) = _
    rw [ih _ (fun e2 he2 => h e2 (by simp [he2]))]
    rw [storeTotal_applyEvent ops S ntot st e he.1 he.2]
    simp only [nnnSum, List.map_cons, List.sum_cons]
    ring

theorem storeTotal_zero (S : Finset ℕ) (ntot : ℕ) :
    storeTotalNtri S ntot zeroStore = 0 := by
  unfold storeTotalNtri binTotalNtri zeroStore zeroAcc
  simp

/-- Every commit of a run whose calls only address slots below k goes to a
slot below k and to a bin index inside [0, ntot). -/
theorem runCalls_store_ok (P : Params) (ops : NumOps) (k : ℕ) (fuel : ℕ)
    (calls : List Call) (hS : ∀ cl ∈ calls, ∀ i ∈ callIds cl, i < k) :
    ∀ e ∈ (runCalls P ops fuel calls).events,
      e.slot ∈ Finset.range k ∧ e.index.toNat < P.ntot := by
  intro e he
  refine runCalls_events_spec P ops
    (fun e2 => e2.slot ∈ Finset.range k ∧ e2.index.toNat < P.ntot)
    (fun i => i < k) ?_ fuel calls (fun cl hcl i hi => hS cl hcl i hi) e he
  intro i1 c1 c2 c3 d1 d2 d3 u v e2 hmem hc
  obtain ⟨hslot, -, -, -, -, -, -, -, -, -, -, -, -, -, -, -, -, -, -, h0, h1⟩ :=
    commitStep_some P ops i1 c1 c2 c3 d1 d2 d3 u v e2 hc
  refine ⟨by rw [hslot]; exact Finset.mem_range.mpr hmem, by omega⟩

/-- C1: count conservation.  For fields of cells whose trees satisfy the
counting invariant and carry unit-weight points, if the run prunes nothing
(noPrune: every call, and every call it spawns, finishes normally and
commits exactly the triple count it covers), then the auto entry point
leaves a total ntri, summed over all bins of the accumulator, of
N(N-1)(N-2)/6 where N is the total point count; the cross-12 entry point
totals N1*N2*(N2-1)/2 over the three sibling accumulators, and the
cross-111 entry point totals N1*N2*N3 over the six. -/
theorem c1_count_conservation (P : Params) (ops : NumOps) (fuel : ℕ) :
    (∀ cells : List Cell, cells.all goodTree = true → cells.all unitW = true →
      (autoCalls cells).all (noPrune P ops fuel) = true →
      (processAuto P ops fuel cells).status = .ok ∧
      storeTotalNtri (Finset.range 1) P.ntot
          (applyEvents ops (processAuto P ops fuel cells).events zeroStore) =
        (sumN cells : ℚ) * ((sumN cells : ℚ) - 1) * ((sumN cells : ℚ) - 2) / 6) ∧
    (∀ f1 f2 : List Cell, f1.all goodTree = true → f2.all goodTree = true →
      f1.all unitW = true → f2.all unitW = true →
      (cross12Calls f2 f1).all (noPrune P ops fuel) = true →
      (processCross12 P ops fuel f1 f2).status = .ok ∧
      storeTotalNtri (Finset.range 3) P.ntot
          (applyEvents ops (processCross12 P ops fuel f1 f2).events zeroStore) =
        (sumN f1 : ℚ) * (sumN f2 : ℚ) * ((sumN f2 : ℚ) - 1) / 2) ∧
    (∀ f1 f2 f3 : List Cell, f1.all goodTree = true → f2.all goodTree = true →
      f3.all goodTree = true → f1.all unitW = true → f2.all unitW = true →
      f3.all unitW = true →
      (cross111Calls f2 f3 f1).all (noPrune P ops fuel) = true →
      (processCross111 P ops fuel f1 f2 f3).status = .ok ∧
      storeTotalNtri (Finset.range 6) P.ntot
          (applyEvents ops (processCross111 P ops fuel f1 f2 f3).events zeroStore) =
        (sumN f1 : ℚ) * (sumN f2 : ℚ) * (sumN f3 : ℚ)) := by
  refine ⟨fun cells hg _ hnp => ?_, fun f1 f2 hg1 hg2 _ _ hnp => ?_,
    fun f1 f2 f3 hg1 hg2 hg3 _ _ _ hnp => ?_⟩
  · have hgs : ∀ c ∈ cells, goodTree c = true := List.all_eq_true.mp hg
    have hcons := runCalls_conserve P ops fuel (autoCalls cells)
      (autoCalls_good cells hgs) (List.all_eq_true.mp hnp)
    have hevs := runCalls_store_ok P ops 1 fuel (autoCalls cells) (autoCalls_ids cells)
    refine ⟨hcons.1, ?_⟩
    show storeTotalNtri (Finset.range 1) P.ntot
      (applyEvents ops (runCalls P ops fuel (autoCalls cells)).events zeroStore) = _
    rw [storeTotal_applyEvents ops (Finset.range 1) P.ntot _ zeroStore hevs,
        storeTotal_zero, zero_add, hcons.2, autoCalls_value]
    rfl
  · have hg1s : ∀ c ∈ f1, goodTree c = true := List.all_eq_true.mp hg1
    have hg2s : ∀ c ∈ f2, goodTree c = true := List.all_eq_true.mp hg2
    have hcons := runCalls_conserve P ops fuel (cross12Calls f2 f1)
      (cross12Calls_good f2 hg2s f1 hg1s) (List.all_eq_true.mp hnp)
    have hevs := runCalls_store_ok P ops 3 fuel (cross12Calls f2 f1)
      (cross12Calls_ids f2 f1)
    refine ⟨hcons.1, ?_⟩
    show storeTotalNtri (Finset.range 3) P.ntot
      (applyEvents ops (runCalls P ops fuel (cross12Calls f2 f1)).events zeroStore) = _
    rw [storeTotal_applyEvents ops (Finset.range 3) P.ntot _ zeroStore hevs,
        storeTotal_zero, zero_add, hcons.2, cross12Calls_value]
    simp only [q2]
    ring
  · have hg1s : ∀ c ∈ f1, goodTree c = true := List.all_eq_true.mp hg1
    have hg2s : ∀ c ∈ f2, goodTree c = true := List.all_eq_true.mp hg2
    have hg3s : ∀ c ∈ f3, goodTree c = true := List.all_eq_true.mp hg3
    have hcons := runCalls_conserve P ops fuel (cross111Calls f2 f3 f1)
      (cross111Calls_good f2 hg2s f3 hg3s f1 hg1s) (List.all_eq_true.mp hnp)
    have hevs := runCalls_store_ok P ops 6 fuel (cross111Calls f2 f3 f1)
      (cross111Calls_ids f2 f3 f1)
    refine ⟨hcons.1, ?_⟩
    show storeTotalNtri (Finset.range 6) P.ntot
      (applyEvents ops (runCalls P ops fuel (cross111Calls f2 f3 f1)).events zeroStore) = _
    rw [storeTotal_applyEvents ops (Finset.range 6) P.ntot _ zeroStore hevs,
        storeTotal_zero, zero_add, hcons.2, cross111Calls_value]

/-- Concrete singleton-leaf cells for the conservation witness runs. -/
def wd1 : Cell := .leaf (0, 0) 0 1 1

def wd2 : Cell := .leaf (3, 0) 0 1 1

def wd3 : Cell := .leaf (0, 4) 0 1 1

def pD : Params := mkParams testOps 1 100 1 1 (1/10) 0 2 2 1 (1/10) 0 1 1 1 (1/10)

theorem c1_count_conservation_witness :
    ([wd1, wd2, wd3].all goodTree = true ∧ [wd1, wd2, wd3].all unitW = true ∧
      (autoCalls [wd1, wd2, wd3]).all (noPrune pD testOps 2) = true ∧
      (processAuto pD testOps 2 [wd1, wd2, wd3]).status = .ok ∧
      storeTotalNtri (Finset.range 1) pD.ntot
          (applyEvents testOps (processAuto pD testOps 2 [wd1, wd2, wd3]).events
            zeroStore) =
        (sumN [wd1, wd2, wd3] : ℚ) * ((sumN [wd1, wd2, wd3] : ℚ) - 1) *
          ((sumN [wd1, wd2, wd3] : ℚ) - 2) / 6) ∧
    ((cross12Calls [wd2, wd3] [wd1]).all (noPrune pD testOps 2) = true ∧
      (processCross12 pD testOps 2 [wd1] [wd2, wd3]).status = .ok ∧
      storeTotalNtri (Finset.range 3) pD.ntot
          (applyEvents testOps (processCross12 pD testOps 2 [wd1] [wd2, wd3]).events
            zeroStore) =
        (sumN [wd1] : ℚ) * (sumN [wd2, wd3] : ℚ) * ((sumN [wd2, wd3] : ℚ) - 1) / 2) ∧
    ((cross111Calls [wd2] [wd3] [wd1]).all (noPrune pD testOps 2) = true ∧
      (processCross111 pD testOps 2 [wd1] [wd2] [wd3]).status = .ok ∧
      storeTotalNtri (Finset.range 6) pD.ntot
          (applyEvents testOps (processCross111 pD testOps 2 [wd1] [wd2] [wd3]).events
            zeroStore) =
        (sumN [wd1] : ℚ) * (sumN [wd2] : ℚ) * (sumN [wd3] : ℚ)) :=
  ⟨⟨by with_unfolding_all rfl, by with_unfolding_all rfl, by with_unfolding_all rfl,
    (c1_count_conservation pD testOps 2).1 [wd1, wd2, wd3]
      (by with_unfolding_all rfl) (by with_unfolding_all rfl) (by with_unfolding_all rfl)⟩,
   ⟨by with_unfolding_all rfl,
    (c1_count_conservation pD testOps 2).2.1 [wd1] [wd2, wd3]
      (by with_unfolding_all rfl) (by with_unfolding_all rfl) (by with_unfolding_all rfl)
      (by with_unfolding_all rfl) (by with_unfolding_all rfl)⟩,
   ⟨by with_unfolding_all rfl,
    (c1_count_conservation pD testOps 2).2.2 [wd1] [wd2] [wd3]
      (by with_unfolding_all rfl) (by with_unfolding_all rfl) (by with_unfolding_all rfl)
      (by with_unfolding_all rfl) (by with_unfolding_all rfl) (by with_unfolding_all rfl)
      (by with_unfolding_all rfl)⟩⟩

end TC
